import Mathlib

/-!
Verification of the block-document export pipeline of the blocknote-portfolio
application against its design specification.

The development shallowly embeds the JavaScript/TypeScript sources:

* plain JSON-like runtime values are modelled by the inductive type `JVal`
  (JavaScript `undefined` is modelled by absence, i.e. `Option JVal`, at the
  places where the sources can observe it);
* JavaScript member access `v.k` is modelled by `getMem` (returning `none`
  for `undefined`); unguarded member access on `null` — a TypeError in
  JavaScript — is modelled by `Except Unit` errors in the functions that can
  actually perform such an access;
* JavaScript truthiness is modelled by `truthy`.

Functions are translated from these sources:
* `BlockNoteEditor.tsx` (`handleExportPDF` sanitize pass, `sanitizeBlock`),
* `utils/pdfExport.tsx` (`extractTextContent`, `renderInlineContent`,
  `findFirstImage`, `renderBlock`, the numbered-list grouping in
  `PDFDocument`),
* `utils/storage.ts` (`loadEditorContent`),
* `components/blocks/ProjectCard.tsx` (nested-editor synchronisation write).
-/

/-- Runtime JSON-like values: the plain-data fragment of JavaScript values
that survives a `JSON.parse(JSON.stringify(...))` round trip. Object fields
are kept as an ordered association list, mirroring JavaScript property
insertion order. -/
inductive JVal : Type where
  | jnull : JVal
  | jbool (b : Bool) : JVal
  | jnum (n : Int) : JVal
  | jstr (s : String) : JVal
  | jarr (elems : List JVal) : JVal
  | jobj (fields : List (String × JVal)) : JVal

/-- Lookup of a field in an object's field list (first occurrence, matching
JavaScript objects, whose keys are unique). -/
def lookupF (k : String) : List (String × JVal) → Option JVal
  | [] => none
  | (k', v) :: rest => if k' = k then some v else lookupF k rest

/-- Member access `v.k` on a non-null value: objects look up the field,
every other value has no own properties that the sources ever read, so the
access yields `undefined` (`none`). Member access on `null` is *not* this
function: the translated code models it as a thrown TypeError where it can
occur. -/
def getMem (v : JVal) (k : String) : Option JVal :=
  match v with
  | .jobj fs => lookupF k fs
  | _ => none

/-- JavaScript truthiness of a `JVal`. -/
def truthy : JVal → Bool
  | .jnull => false
  | .jbool b => b
  | .jnum n => n ≠ 0
  | .jstr s => s ≠ ""
  | .jarr _ => true
  | .jobj _ => true

/-- Truthiness of a possibly-`undefined` value (`undefined` is falsy). -/
def truthyOpt : Option JVal → Bool
  | none => false
  | some v => truthy v

/-- Values with `typeof v === "object"` (which in JavaScript includes
`null`, arrays and plain objects). -/
def isObjTy : JVal → Bool
  | .jnull => true
  | .jarr _ => true
  | .jobj _ => true
  | _ => false

/-- Truthy values of object type: exactly arrays and objects. This is the
guard `block && typeof block === "object"` condensed. -/
def isObjLike : JVal → Bool
  | .jarr _ => true
  | .jobj _ => true
  | _ => false

/-- Primitive values in the sense of the sanitizer's filter:
`value === null || ["string", "number", "boolean"].includes(typeof value)`. -/
def isPrim : JVal → Bool
  | .jnull => true
  | .jbool _ => true
  | .jnum _ => true
  | .jstr _ => true
  | _ => false

theorem sizeOf_lookupF {fs : List (String × JVal)} {k : String} {v : JVal}
    (h : lookupF k fs = some v) : sizeOf v < sizeOf fs := by
  induction fs with
  | nil => simp [lookupF] at h
  | cons kv rest ih =>
    obtain ⟨k', v'⟩ := kv
    simp only [lookupF] at h
    split at h
    · cases h; simp; omega
    · have := ih h; simp; omega

theorem sizeOf_getMem {v : JVal} {k : String} {w : JVal} (h : getMem v k = some w) :
    sizeOf w < sizeOf v := by
  cases v <;> simp [getMem] at h
  have := sizeOf_lookupF h
  simp
  omega

theorem one_le_sizeOf_list {α : Type} [SizeOf α] (xs : List α) : 1 ≤ sizeOf xs := by
  cases xs <;> simp <;> omega

theorem sizeOf_getMem_opt {v : JVal} (k : String) (hobj : isObjLike v = true) :
    sizeOf (getMem v k) < sizeOf v := by
  cases hg : getMem v k with
  | none =>
    cases v <;> simp [isObjLike] at hobj
    · rename_i xs
      have := one_le_sizeOf_list xs
      simp
      omega
    · rename_i fs
      have := one_le_sizeOf_list fs
      simp
      omega
  | some w =>
    cases v <;> simp [getMem] at hg
    have := sizeOf_lookupF hg
    simp
    omega

/-- Decimal digit characters, used to model the string keys JavaScript
derives from array indices (`Object.entries` on an array). -/
def digitCh : Nat → Char
  | 0 => '0' | 1 => '1' | 2 => '2' | 3 => '3' | 4 => '4'
  | 5 => '5' | 6 => '6' | 7 => '7' | 8 => '8' | _ => '9'

/-- Decimal digit list of a natural number, most significant first. -/
def decDigits (n : Nat) : List Char :=
  if h : n < 10 then [digitCh n]
  else decDigits (n / 10) ++ [digitCh (n % 10)]
termination_by n
decreasing_by
  exact Nat.div_lt_self (by omega) (by omega)

/-- String key JavaScript uses for the array index `n`. -/
def jsIndexKey (n : Nat) : String := String.mk (decDigits n)

/-- Reserved-key test of the export flow's `JSON.stringify` replacer:
`key.startsWith("_") || key.startsWith("$$")`, expressed over the character
list of the key. -/
def reservedKey (k : String) : Bool :=
  (k.data.take 1 = ['_']) || (k.data.take 2 = ['$', '$'])

theorem digitCh_ne (n : Nat) : digitCh n ≠ '_' ∧ digitCh n ≠ '$' := by
  unfold digitCh
  split <;> exact ⟨by decide, by decide⟩

/-- Heads of decimal digit lists are digits, hence never the reserved-key
leading characters. -/
theorem decDigits_head (n : Nat) :
    ∃ c rest, decDigits n = c :: rest ∧ c ≠ '_' ∧ c ≠ '$' := by
  rw [decDigits]
  split
  · exact ⟨digitCh n, [], rfl, digitCh_ne n⟩
  · obtain ⟨c, rest, heq, hc⟩ := decDigits_head (n / 10)
    exact ⟨c, rest ++ [digitCh (n % 10)], by rw [heq]; simp, hc⟩
termination_by n
decreasing_by
  exact Nat.div_lt_self (by omega) (by omega)

theorem reservedKey_jsIndexKey (n : Nat) : reservedKey (jsIndexKey n) = false := by
  obtain ⟨c, rest, heq, hc1, hc2⟩ := decDigits_head n
  simp only [reservedKey, jsIndexKey, heq]
  cases rest <;> simp [hc1, hc2]

/-- Entries of `Object.entries(v)`: an object's own fields in order; an
array's elements keyed by their decimal indices; nothing for primitives. -/
def entriesOf : JVal → List (String × JVal)
  | .jobj fs => fs
  | .jarr xs => enumKeysFrom 0 xs
  | _ => []
where
  enumKeysFrom (i : Nat) : List JVal → List (String × JVal)
    | [] => []
    | x :: rest => (jsIndexKey i, x) :: enumKeysFrom (i + 1) rest

mutual

/-- JSON round trip `JSON.parse(JSON.stringify(raw, replacer))` performed by
`handleExportPDF` on plain data. On `JVal` (which contains no `undefined`,
functions, symbols or cycles) the pass reduces to recursively dropping every
object field whose key starts with the internal-reserved prefixes `_` or
`$$`. -/
def jsonRoundTrip : JVal → JVal
  | .jarr xs => .jarr (rtList xs)
  | .jobj fs => .jobj (rtFields fs)
  | .jnull => .jnull
  | .jbool b => .jbool b
  | .jnum n => .jnum n
  | .jstr s => .jstr s
termination_by v => sizeOf v

/-- Round trip of the elements of an array. -/
def rtList : List JVal → List JVal
  | [] => []
  | v :: rest => jsonRoundTrip v :: rtList rest
termination_by xs => sizeOf xs
decreasing_by
  all_goals simp
  all_goals omega

/-- Round trip of the fields of an object, dropping reserved keys. -/
def rtFields : List (String × JVal) → List (String × JVal)
  | [] => []
  | (k, v) :: rest =>
    if reservedKey k then rtFields rest
    else (k, jsonRoundTrip v) :: rtFields rest
termination_by fs => sizeOf fs
decreasing_by
  all_goals simp
  all_goals omega

end

mutual

/-- Absence of reserved keys anywhere in a value (the invariant established
by `jsonRoundTrip`). -/
def nrVal : JVal → Bool
  | .jarr xs => nrList xs
  | .jobj fs => nrFields fs
  | _ => true
termination_by v => sizeOf v

/-- Absence of reserved keys in a list of values. -/
def nrList : List JVal → Bool
  | [] => true
  | v :: rest => nrVal v && nrList rest
termination_by xs => sizeOf xs
decreasing_by
  all_goals simp
  all_goals omega

/-- Absence of reserved keys in a field list. -/
def nrFields : List (String × JVal) → Bool
  | [] => true
  | (k, v) :: rest => !reservedKey k && nrVal v && nrFields rest
termination_by fs => sizeOf fs
decreasing_by
  all_goals simp
  all_goals omega

end

mutual

theorem nrVal_jsonRoundTrip : ∀ v : JVal, nrVal (jsonRoundTrip v) = true := by
  intro v
  cases v with
  | jarr xs => rw [jsonRoundTrip, nrVal]; exact nrList_rtList xs
  | jobj fs => rw [jsonRoundTrip, nrVal]; exact nrFields_rtFields fs
  | jnull => rw [jsonRoundTrip]; simp [nrVal]
  | jbool b => rw [jsonRoundTrip]; simp [nrVal]
  | jnum n => rw [jsonRoundTrip]; simp [nrVal]
  | jstr s => rw [jsonRoundTrip]; simp [nrVal]
termination_by v => sizeOf v

theorem nrList_rtList : ∀ xs : List JVal, nrList (rtList xs) = true := by
  intro xs
  match xs with
  | [] => rw [rtList, nrList]
  | v :: rest =>
    rw [rtList, nrList, nrVal_jsonRoundTrip v, nrList_rtList rest]
    rfl
termination_by xs => sizeOf xs
decreasing_by
  all_goals simp
  all_goals omega

theorem nrFields_rtFields : ∀ fs : List (String × JVal), nrFields (rtFields fs) = true := by
  intro fs
  match fs with
  | [] => rw [rtFields, nrFields]
  | (k, v) :: rest =>
    rw [rtFields]
    split
    · exact nrFields_rtFields rest
    · rename_i hres
      have hres' : reservedKey k = false := by simpa using hres
      rw [nrFields, nrVal_jsonRoundTrip v, nrFields_rtFields rest, hres']
      rfl
termination_by fs => sizeOf fs
decreasing_by
  all_goals simp
  all_goals omega

end

mutual

theorem jsonRoundTrip_of_nr : ∀ v : JVal, nrVal v = true → jsonRoundTrip v = v := by
  intro v h
  cases v with
  | jarr xs => rw [nrVal] at h; rw [jsonRoundTrip, rtList_of_nr xs h]
  | jobj fs => rw [nrVal] at h; rw [jsonRoundTrip, rtFields_of_nr fs h]
  | jnull => rw [jsonRoundTrip]
  | jbool b => rw [jsonRoundTrip]
  | jnum n => rw [jsonRoundTrip]
  | jstr s => rw [jsonRoundTrip]
termination_by v => sizeOf v

theorem rtList_of_nr : ∀ xs : List JVal, nrList xs = true → rtList xs = xs := by
  intro xs h
  match xs with
  | [] => rw [rtList]
  | v :: rest =>
    rw [nrList, Bool.and_eq_true] at h
    rw [rtList, jsonRoundTrip_of_nr v h.1, rtList_of_nr rest h.2]
termination_by xs => sizeOf xs
decreasing_by
  all_goals simp
  all_goals omega

theorem rtFields_of_nr : ∀ fs : List (String × JVal), nrFields fs = true → rtFields fs = fs := by
  intro fs h
  match fs with
  | [] => rw [rtFields]
  | (k, v) :: rest =>
    rw [nrFields, Bool.and_eq_true, Bool.and_eq_true] at h
    rw [rtFields, if_neg (by simp [show reservedKey k = false by simpa using h.1.1]),
      jsonRoundTrip_of_nr v h.1.2,
      rtFields_of_nr rest h.2]
termination_by fs => sizeOf fs
decreasing_by
  all_goals simp
  all_goals omega

end

/-- Values reachable through a field list satisfy `nrVal` when the list
satisfies `nrFields`. -/
theorem nrVal_of_lookupF {fs : List (String × JVal)} {k : String} {v : JVal}
    (hnr : nrFields fs = true) (h : lookupF k fs = some v) : nrVal v = true := by
  induction fs with
  | nil => simp [lookupF] at h
  | cons kv rest ih =>
    obtain ⟨k', v'⟩ := kv
    rw [nrFields, Bool.and_eq_true, Bool.and_eq_true] at hnr
    simp only [lookupF] at h
    split at h
    · cases h; exact hnr.1.2
    · exact ih hnr.2 h

theorem nrVal_of_getMem {v w : JVal} {k : String}
    (hnr : nrVal v = true) (h : getMem v k = some w) : nrVal w = true := by
  cases v <;> simp [getMem] at h
  rw [nrVal] at hnr
  exact nrVal_of_lookupF hnr h

/-- Optional object entry: the field is present exactly when the option is. -/
def optEntry (k : String) : Option JVal → List (String × JVal)
  | some x => [(k, x)]
  | none => []

/-- Sanitized `id` field: `if (block.id) sanitized.id = block.id` — the
field is copied as-is when truthy, omitted otherwise. -/
def sanId : Option JVal → Option JVal
  | some i => if truthy i then some i else none
  | none => none

/-- Sanitized `content` field:
`if (block.content) sanitized.content = Array.isArray(block.content) ? block.content : []` —
a (necessarily truthy) array is kept as-is, a truthy non-array becomes the
empty array, a falsy or absent value leaves the field out. -/
def sanContent : Option JVal → Option JVal
  | some (.jarr xs) => some (.jarr xs)
  | some c => if truthy c then some (.jarr []) else none
  | none => none

/-- Sanitized `props` field: when `block.props && typeof block.props === "object"`,
copy the entries of `block.props` keeping only primitive-typed values. -/
def sanProps : Option JVal → Option JVal
  | some p =>
    if truthy p && isObjTy p then
      some (.jobj ((entriesOf p).filter fun kv => isPrim kv.2))
    else none
  | none => none

mutual

/-- The recursive `sanitizeBlock` of `handleExportPDF`
(BlockNoteEditor.tsx lines 197-221): a non-object (or falsy) candidate maps
to `null`; otherwise a fresh object is built carrying `type` as-is, then
optionally `id`, `content`, `children` and `props` as sanitized by the
helper functions. A source `type` of `undefined` is modelled as an absent
`type` field, which no reader of the sanitized output can distinguish from
a present-but-undefined property. -/
def sanitizeBlock (v : JVal) : Option JVal :=
  if hv : isObjLike v then
    some (.jobj (
      optEntry "type" (getMem v "type") ++
      optEntry "id" (sanId (getMem v "id")) ++
      optEntry "content" (sanContent (getMem v "content")) ++
      optEntry "children" (sanChildrenOpt (getMem v "children")) ++
      optEntry "props" (sanProps (getMem v "props"))))
  else none
termination_by sizeOf v
decreasing_by
  exact sizeOf_getMem_opt "children" hv

/-- Sanitized `children` field:
`if (block.children) sanitized.children = Array.isArray(block.children) ? block.children.map(sanitizeBlock).filter(Boolean) : []`. -/
def sanChildrenOpt : Option JVal → Option JVal
  | some (.jarr xs) => some (.jarr (sanKids xs))
  | some c => if truthy c then some (.jarr []) else none
  | none => none
termination_by o => sizeOf o
decreasing_by
  simp
  omega

/-- The composite `children.map(sanitizeBlock).filter(Boolean)`. -/
def sanKids : List JVal → List JVal
  | [] => []
  | k :: rest =>
    match sanitizeBlock k with
    | some s => s :: sanKids rest
    | none => sanKids rest
termination_by xs => sizeOf xs
decreasing_by
  all_goals simp
  all_goals omega

end

theorem lookupF_optEntry_ne {k k' : String} (o : Option JVal)
    (rest : List (String × JVal)) (h : k' ≠ k) :
    lookupF k (optEntry k' o ++ rest) = lookupF k rest := by
  cases o <;> simp [optEntry, lookupF, h]

theorem lookupF_optEntry_eq (k : String) (o : Option JVal)
    (rest : List (String × JVal)) (hrest : lookupF k rest = none) :
    lookupF k (optEntry k o ++ rest) = o := by
  cases o <;> simp [optEntry, lookupF, hrest]

theorem lookupF_optEntry_last_ne {k k' : String} (o : Option JVal) (h : k' ≠ k) :
    lookupF k (optEntry k' o) = none := by
  cases o <;> simp [optEntry, lookupF, h]

theorem lookupF_optEntry_last_eq (k : String) (o : Option JVal) :
    lookupF k (optEntry k o) = o := by
  cases o <;> simp [optEntry, lookupF]

/-- Shape of the object built by `sanitizeBlock`. -/
def sanObj (t i c ch p : Option JVal) : JVal :=
  .jobj (optEntry "type" t ++ optEntry "id" i ++ optEntry "content" c ++
    optEntry "children" ch ++ optEntry "props" p)

theorem sanitizeBlock_eq_sanObj (v : JVal) (hv : isObjLike v = true) :
    sanitizeBlock v = some (sanObj (getMem v "type") (sanId (getMem v "id"))
      (sanContent (getMem v "content")) (sanChildrenOpt (getMem v "children"))
      (sanProps (getMem v "props"))) := by
  rw [sanitizeBlock, dif_pos hv, sanObj]

theorem getMem_sanObj_type (t i c ch p : Option JVal) :
    getMem (sanObj t i c ch p) "type" = t := by
  rw [sanObj, getMem]
  simp only [List.append_assoc]
  rw [lookupF_optEntry_eq]
  rw [lookupF_optEntry_ne _ _ (by decide), lookupF_optEntry_ne _ _ (by decide),
    lookupF_optEntry_ne _ _ (by decide), lookupF_optEntry_last_ne _ (by decide)]

theorem getMem_sanObj_id (t i c ch p : Option JVal) :
    getMem (sanObj t i c ch p) "id" = i := by
  rw [sanObj, getMem]
  simp only [List.append_assoc]
  rw [lookupF_optEntry_ne _ _ (by decide), lookupF_optEntry_eq]
  rw [lookupF_optEntry_ne _ _ (by decide), lookupF_optEntry_ne _ _ (by decide),
    lookupF_optEntry_last_ne _ (by decide)]

theorem getMem_sanObj_content (t i c ch p : Option JVal) :
    getMem (sanObj t i c ch p) "content" = c := by
  rw [sanObj, getMem]
  simp only [List.append_assoc]
  rw [lookupF_optEntry_ne _ _ (by decide), lookupF_optEntry_ne _ _ (by decide),
    lookupF_optEntry_eq]
  rw [lookupF_optEntry_ne _ _ (by decide), lookupF_optEntry_last_ne _ (by decide)]

theorem getMem_sanObj_children (t i c ch p : Option JVal) :
    getMem (sanObj t i c ch p) "children" = ch := by
  rw [sanObj, getMem]
  simp only [List.append_assoc]
  rw [lookupF_optEntry_ne _ _ (by decide), lookupF_optEntry_ne _ _ (by decide),
    lookupF_optEntry_ne _ _ (by decide), lookupF_optEntry_eq]
  rw [lookupF_optEntry_last_ne _ (by decide)]

theorem getMem_sanObj_props (t i c ch p : Option JVal) :
    getMem (sanObj t i c ch p) "props" = p := by
  rw [sanObj, getMem]
  simp only [List.append_assoc]
  rw [lookupF_optEntry_ne _ _ (by decide), lookupF_optEntry_ne _ _ (by decide),
    lookupF_optEntry_ne _ _ (by decide), lookupF_optEntry_ne _ _ (by decide),
    lookupF_optEntry_last_eq]

theorem sanId_idem (o : Option JVal) : sanId (sanId o) = sanId o := by
  cases o with
  | none => rfl
  | some i =>
    by_cases h : truthy i = true
    · simp [sanId, h]
    · simp [sanId, h]

theorem sanContent_idem (o : Option JVal) : sanContent (sanContent o) = sanContent o := by
  match o with
  | none => rfl
  | some (.jarr xs) => rfl
  | some .jnull => simp [sanContent, truthy]
  | some (.jbool b) => cases b <;> simp [sanContent, truthy]
  | some (.jnum n) =>
    by_cases h : n = 0 <;> simp [sanContent, truthy, h]
  | some (.jstr s) =>
    by_cases h : s = "" <;> simp [sanContent, truthy, h]
  | some (.jobj fs) => simp [sanContent, truthy]

theorem sanProps_filter_prim {o : Option JVal} {q : JVal} (h : sanProps o = some q) :
    ∃ l, q = .jobj l ∧ ∀ kv ∈ l, isPrim kv.2 = true := by
  match o with
  | none => simp [sanProps] at h
  | some p =>
    simp only [sanProps] at h
    split at h
    · cases h
      refine ⟨_, rfl, ?_⟩
      intro kv hkv
      exact (List.mem_filter.mp hkv).2
    · cases h

theorem sanProps_idem (o : Option JVal) : sanProps (sanProps o) = sanProps o := by
  cases ho : sanProps o with
  | none => rfl
  | some q =>
    obtain ⟨l, rfl, hall⟩ := sanProps_filter_prim ho
    simp only [sanProps, truthy, isObjTy, Bool.and_self, if_pos, entriesOf]
    rw [List.filter_eq_self.mpr hall]

/-- Absence of reserved keys in a possibly-absent value. -/
def nrOpt : Option JVal → Bool
  | none => true
  | some v => nrVal v

theorem nrOpt_getMem {v : JVal} (k : String) (hnr : nrVal v = true) :
    nrOpt (getMem v k) = true := by
  cases hg : getMem v k with
  | none => rfl
  | some w => exact nrVal_of_getMem hnr hg

theorem nrOpt_sanId {o : Option JVal} (h : nrOpt o = true) : nrOpt (sanId o) = true := by
  cases o with
  | none => rfl
  | some i =>
    by_cases hi : truthy i = true <;> simp [sanId, hi] <;> simpa [nrOpt] using h

theorem nrVal_nil_arr : nrVal (.jarr []) = true := by
  rw [nrVal, nrList]

theorem nrOpt_sanContent {o : Option JVal} (h : nrOpt o = true) :
    nrOpt (sanContent o) = true := by
  match o with
  | none => rfl
  | some (.jarr xs) => exact h
  | some .jnull => simp [sanContent, truthy, nrOpt]
  | some (.jbool b) => cases b <;> simp [sanContent, truthy, nrOpt, nrVal_nil_arr]
  | some (.jnum n) =>
    by_cases hn : n = 0 <;> simp [sanContent, truthy, hn, nrOpt, nrVal_nil_arr]
  | some (.jstr s) =>
    by_cases hs : s = "" <;> simp [sanContent, truthy, hs, nrOpt, nrVal_nil_arr]
  | some (.jobj fs) => simp [sanContent, truthy, nrOpt, nrVal_nil_arr]

theorem nrFields_filter {fs : List (String × JVal)} (pred : String × JVal → Bool)
    (h : nrFields fs = true) : nrFields (fs.filter pred) = true := by
  induction fs with
  | nil => simpa using h
  | cons kv rest ih =>
    obtain ⟨k, v⟩ := kv
    rw [nrFields, Bool.and_eq_true, Bool.and_eq_true] at h
    by_cases hp : pred (k, v) = true
    · simp only [List.filter_cons_of_pos hp]
      rw [nrFields, h.1.1, h.1.2, ih h.2]
      rfl
    · simp only [List.filter_cons_of_neg (by simpa using hp)]
      exact ih h.2

theorem nrVal_of_isPrim {v : JVal} (h : isPrim v = true) : nrVal v = true := by
  cases v <;> simp [isPrim] at h <;> simp [nrVal]

theorem nrFields_enum_filter (i : Nat) (xs : List JVal) :
    nrFields ((entriesOf.enumKeysFrom i xs).filter fun kv => isPrim kv.2) = true := by
  induction xs generalizing i with
  | nil => rw [entriesOf.enumKeysFrom, List.filter_nil, nrFields]
  | cons x rest ih =>
    rw [entriesOf.enumKeysFrom]
    by_cases hp : isPrim x = true
    · rw [List.filter_cons_of_pos (by simpa using hp)]
      rw [nrFields, reservedKey_jsIndexKey, nrVal_of_isPrim hp, ih (i + 1)]
      rfl
    · rw [List.filter_cons_of_neg (by simpa using hp)]
      exact ih (i + 1)

theorem nrOpt_sanProps {o : Option JVal} (h : nrOpt o = true) :
    nrOpt (sanProps o) = true := by
  match o with
  | none => rfl
  | some p =>
    simp only [sanProps]
    split
    · rename_i hcond
      match p with
      | .jobj fs =>
        simp only [nrOpt, entriesOf]
        rw [nrVal]
        exact nrFields_filter _ (by simpa [nrOpt, nrVal] using h)
      | .jarr xs =>
        simp only [nrOpt, entriesOf]
        rw [nrVal]
        exact nrFields_enum_filter 0 xs
      | .jnull => simp [truthy] at hcond
      | .jbool b => simp [isObjTy] at hcond
      | .jnum n => simp [isObjTy] at hcond
      | .jstr s => simp [isObjTy] at hcond
    · rfl

theorem nrFields_optEntry_append (k : String) {o : Option JVal}
    {rest : List (String × JVal)} (hk : reservedKey k = false)
    (ho : nrOpt o = true) (hrest : nrFields rest = true) :
    nrFields (optEntry k o ++ rest) = true := by
  cases o with
  | none => simpa [optEntry] using hrest
  | some x =>
    simp only [optEntry, List.cons_append, List.nil_append]
    rw [nrFields, hk, hrest]
    simpa [nrOpt] using ho

theorem nrFields_nil : nrFields [] = true := by rw [nrFields]

mutual

theorem sanitizeBlock_nr : ∀ (v o : JVal), nrVal v = true → sanitizeBlock v = some o →
    nrVal o = true := by
  intro v o hnr h
  rw [sanitizeBlock] at h
  split at h
  · rename_i hv
    rw [Option.some_inj] at h
    subst h
    rw [nrVal]
    simp only [List.append_assoc]
    refine nrFields_optEntry_append "type" (by decide) (nrOpt_getMem _ hnr) ?_
    refine nrFields_optEntry_append "id" (by decide) (nrOpt_sanId (nrOpt_getMem _ hnr)) ?_
    refine nrFields_optEntry_append "content" (by decide)
      (nrOpt_sanContent (nrOpt_getMem _ hnr)) ?_
    refine nrFields_optEntry_append "children" (by decide) ?_ ?_
    · cases hch : getMem v "children" with
      | none => rw [sanChildrenOpt]; rfl
      | some c =>
        have hc : nrVal c = true := nrVal_of_getMem hnr hch
        match c with
        | .jarr xs =>
          rw [sanChildrenOpt]
          simp only [nrOpt]
          rw [nrVal]
          exact sanKids_nr xs (by rwa [nrVal] at hc)
        | .jnull => simp [sanChildrenOpt, truthy, nrOpt]
        | .jbool b =>
          cases b <;> simp [sanChildrenOpt, truthy, nrOpt, nrVal_nil_arr]
        | .jnum n =>
          by_cases hn : n = 0 <;> simp [sanChildrenOpt, truthy, hn, nrOpt, nrVal_nil_arr]
        | .jstr s =>
          by_cases hs : s = "" <;> simp [sanChildrenOpt, truthy, hs, nrOpt, nrVal_nil_arr]
        | .jobj fs => simp [sanChildrenOpt, truthy, nrOpt, nrVal_nil_arr]
    · cases o' : sanProps (getMem v "props") with
      | none =>
        rw [optEntry]
        exact nrFields_nil
      | some q =>
        have := nrOpt_sanProps (o := getMem v "props") (nrOpt_getMem _ hnr)
        rw [o'] at this
        simp only [optEntry]
        rw [nrFields]
        simp only [nrOpt] at this
        rw [this, nrFields_nil]
        decide
  · cases h
termination_by v _ _ _ => sizeOf v
decreasing_by
  have := sizeOf_getMem hch
  simp at this ⊢
  omega

theorem sanKids_nr : ∀ xs : List JVal, nrList xs = true → nrList (sanKids xs) = true := by
  intro xs h
  match xs with
  | [] => rw [sanKids]; exact h
  | k :: rest =>
    rw [nrList, Bool.and_eq_true] at h
    rw [sanKids]
    cases hk : sanitizeBlock k with
    | none => exact sanKids_nr rest h.2
    | some s =>
      rw [nrList, sanitizeBlock_nr k s h.1 hk, sanKids_nr rest h.2]
      rfl
termination_by xs _ => sizeOf xs
decreasing_by
  all_goals simp
  all_goals omega

end

mutual

theorem sanitizeBlock_idem : ∀ (v o : JVal), sanitizeBlock v = some o →
    sanitizeBlock o = some o := by
  intro v o h
  by_cases hv : isObjLike v = true
  · rw [sanitizeBlock_eq_sanObj v hv, Option.some_inj] at h
    have hobj : isObjLike o = true := by rw [← h, sanObj, isObjLike]
    rw [sanitizeBlock_eq_sanObj o hobj]
    rw [← h, getMem_sanObj_type, getMem_sanObj_id, getMem_sanObj_content,
      getMem_sanObj_children, getMem_sanObj_props, sanId_idem, sanContent_idem,
      sanProps_idem, sanChildrenOpt_idem (getMem v "children")]
  · rw [sanitizeBlock, dif_neg hv] at h
    cases h
termination_by v _ _ => sizeOf v
decreasing_by
  exact sizeOf_getMem_opt "children" hv

theorem sanChildrenOpt_idem : ∀ x : Option JVal,
    sanChildrenOpt (sanChildrenOpt x) = sanChildrenOpt x := by
  intro x
  match x with
  | none => simp [sanChildrenOpt]
  | some (.jarr xs) =>
    rw [sanChildrenOpt]
    conv_lhs => rw [sanChildrenOpt]
    rw [sanKids_idem xs]
  | some .jnull => simp [sanChildrenOpt, truthy]
  | some (.jbool b) =>
    cases b <;> simp [sanChildrenOpt, truthy, sanKids]
  | some (.jnum n) =>
    by_cases hn : n = 0 <;> simp [sanChildrenOpt, truthy, hn, sanKids]
  | some (.jstr s) =>
    by_cases hs : s = "" <;> simp [sanChildrenOpt, truthy, hs, sanKids]
  | some (.jobj fs) =>
    simp [sanChildrenOpt, truthy, sanKids]
termination_by x => sizeOf x
decreasing_by
  simp
  omega

theorem sanKids_idem : ∀ xs : List JVal, sanKids (sanKids xs) = sanKids xs := by
  intro xs
  match xs with
  | [] => simp [sanKids]
  | k :: rest =>
    rw [sanKids]
    cases hk : sanitizeBlock k with
    | none => exact sanKids_idem rest
    | some s =>
      rw [sanKids, sanitizeBlock_idem k s hk, sanKids_idem rest]
termination_by xs => sizeOf xs
decreasing_by
  all_goals simp
  all_goals omega

end

/-- Array test `Array.isArray`. -/
def isArr : JVal → Bool
  | .jarr _ => true
  | _ => false


mutual

/-- Structural well-formedness of a sanitized block: it is an object; its
`content` field, when present, is an array; its `children` field, when
present, is an array of well-formed blocks; its `props` field, when present,
is an object all of whose values are primitive. -/
def blockOkB (b : JVal) : Bool :=
  if hb : isObjLike b = true then
    (match getMem b "content" with
     | some c => isArr c
     | none => true) &&
    childrenOk (getMem b "children") &&
    (match getMem b "props" with
     | some (.jobj fs) => fs.all fun kv => isPrim kv.2
     | some _ => false
     | none => true)
  else false
termination_by sizeOf b
decreasing_by
  exact sizeOf_getMem_opt "children" hb

/-- Well-formedness of an optional `children` field. -/
def childrenOk : Option JVal → Bool
  | some (.jarr xs) => blocksOkB xs
  | some _ => false
  | none => true
termination_by o => sizeOf o
decreasing_by
  simp
  omega

/-- Structural well-formedness of a list of sanitized blocks. -/
def blocksOkB : List JVal → Bool
  | [] => true
  | b :: rest => blockOkB b && blocksOkB rest
termination_by xs => sizeOf xs
decreasing_by
  all_goals simp
  all_goals omega

end

mutual

/-- The primitive-only-props invariant of the specification, for one block:
every value in the block's `props` mapping is a string, number, boolean or
null, and the same holds recursively for every block in `children`. -/
def propsPrimB (b : JVal) : Bool :=
  if hb : isObjLike b = true then
    (match getMem b "props" with
     | some (.jobj fs) => fs.all fun kv => isPrim kv.2
     | some _ => false
     | none => true) &&
    childrenPrim (getMem b "children")
  else true
termination_by sizeOf b
decreasing_by
  exact sizeOf_getMem_opt "children" hb

/-- Primitive-only-props invariant of an optional `children` field. -/
def childrenPrim : Option JVal → Bool
  | some (.jarr xs) => propsPrimL xs
  | some _ => true
  | none => true
termination_by o => sizeOf o
decreasing_by
  simp
  omega

/-- Primitive-only-props invariant over a list of blocks. -/
def propsPrimL : List JVal → Bool
  | [] => true
  | b :: rest => propsPrimB b && propsPrimL rest
termination_by xs => sizeOf xs
decreasing_by
  all_goals simp
  all_goals omega

end

theorem sanContent_shape (x : Option JVal) :
    sanContent x = none ∨ ∃ xs, sanContent x = some (.jarr xs) := by
  match x with
  | none => exact Or.inl rfl
  | some (.jarr xs) => exact Or.inr ⟨xs, rfl⟩
  | some .jnull => left; simp [sanContent, truthy]
  | some (.jbool b) =>
    cases b
    · left; simp [sanContent, truthy]
    · right; exact ⟨[], by simp [sanContent, truthy]⟩
  | some (.jnum n) =>
    by_cases hn : n = 0
    · left; simp [sanContent, truthy, hn]
    · right; exact ⟨[], by simp [sanContent, truthy, hn]⟩
  | some (.jstr s) =>
    by_cases hs : s = ""
    · left; simp [sanContent, truthy, hs]
    · right; exact ⟨[], by simp [sanContent, truthy, hs]⟩
  | some (.jobj fs) => right; exact ⟨[], by simp [sanContent, truthy]⟩

theorem sanProps_match_ok (x : Option JVal) :
    (match sanProps x with
     | some (.jobj fs) => fs.all fun kv => isPrim kv.2
     | some _ => false
     | none => true) = true := by
  cases hsp : sanProps x with
  | none => simp
  | some q =>
    obtain ⟨l, rfl, hall⟩ := sanProps_filter_prim hsp
    simp only []
    exact List.all_eq_true.mpr fun kv hkv => hall kv hkv

mutual

theorem sanitizeBlock_blockOk : ∀ (v o : JVal), sanitizeBlock v = some o →
    blockOkB o = true := by
  intro v o h
  by_cases hv : isObjLike v = true
  · rw [sanitizeBlock_eq_sanObj v hv, Option.some_inj] at h
    subst h
    have hobj : isObjLike (sanObj (getMem v "type") (sanId (getMem v "id"))
        (sanContent (getMem v "content")) (sanChildrenOpt (getMem v "children"))
        (sanProps (getMem v "props"))) = true := by
      rw [sanObj, isObjLike]
    rw [blockOkB, dif_pos hobj, getMem_sanObj_content, getMem_sanObj_children,
      getMem_sanObj_props]
    have hcont : (match sanContent (getMem v "content") with
        | some c => isArr c
        | none => true) = true := by
      rcases sanContent_shape (getMem v "content") with hc | ⟨xs, hc⟩ <;>
        simp [hc, isArr]
    rw [hcont, sanProps_match_ok]
    have hkids : childrenOk (sanChildrenOpt (getMem v "children")) = true := by
      cases hgm : getMem v "children" with
      | none => simp [sanChildrenOpt, childrenOk]
      | some c =>
        match c with
        | .jarr xs =>
          rw [sanChildrenOpt, childrenOk]
          exact sanKids_blocksOk xs
        | .jnull => simp [sanChildrenOpt, truthy, childrenOk]
        | .jbool b =>
          cases b <;> simp [sanChildrenOpt, truthy, childrenOk, blocksOkB]
        | .jnum n =>
          by_cases hn : n = 0 <;>
            simp [sanChildrenOpt, truthy, hn, childrenOk, blocksOkB]
        | .jstr s =>
          by_cases hs : s = "" <;>
            simp [sanChildrenOpt, truthy, hs, childrenOk, blocksOkB]
        | .jobj fs => simp [sanChildrenOpt, truthy, childrenOk, blocksOkB]
    rw [hkids]
    rfl
  · rw [sanitizeBlock, dif_neg hv] at h
    cases h
termination_by v _ _ => sizeOf v
decreasing_by
  have := sizeOf_getMem hgm
  simp at this ⊢
  omega

theorem sanKids_blocksOk : ∀ xs : List JVal, blocksOkB (sanKids xs) = true := by
  intro xs
  match xs with
  | [] => rw [sanKids, blocksOkB]
  | k :: rest =>
    rw [sanKids]
    cases hk : sanitizeBlock k with
    | none => exact sanKids_blocksOk rest
    | some s =>
      rw [blocksOkB, sanitizeBlock_blockOk k s hk, sanKids_blocksOk rest]
      rfl
termination_by xs => sizeOf xs
decreasing_by
  all_goals simp
  all_goals omega

end

mutual

theorem sanitizeBlock_propsPrim : ∀ (v o : JVal), sanitizeBlock v = some o →
    propsPrimB o = true := by
  intro v o h
  by_cases hv : isObjLike v = true
  · rw [sanitizeBlock_eq_sanObj v hv, Option.some_inj] at h
    subst h
    have hobj : isObjLike (sanObj (getMem v "type") (sanId (getMem v "id"))
        (sanContent (getMem v "content")) (sanChildrenOpt (getMem v "children"))
        (sanProps (getMem v "props"))) = true := by
      rw [sanObj, isObjLike]
    rw [propsPrimB, dif_pos hobj, getMem_sanObj_children, getMem_sanObj_props,
      sanProps_match_ok]
    have hkids : childrenPrim (sanChildrenOpt (getMem v "children")) = true := by
      cases hgm : getMem v "children" with
      | none => simp [sanChildrenOpt, childrenPrim]
      | some c =>
        match c with
        | .jarr xs =>
          rw [sanChildrenOpt, childrenPrim]
          exact sanKids_propsPrim xs
        | .jnull => simp [sanChildrenOpt, truthy, childrenPrim]
        | .jbool b =>
          cases b <;> simp [sanChildrenOpt, truthy, childrenPrim, propsPrimL]
        | .jnum n =>
          by_cases hn : n = 0 <;>
            simp [sanChildrenOpt, truthy, hn, childrenPrim, propsPrimL]
        | .jstr s =>
          by_cases hs : s = "" <;>
            simp [sanChildrenOpt, truthy, hs, childrenPrim, propsPrimL]
        | .jobj fs => simp [sanChildrenOpt, truthy, childrenPrim, propsPrimL]
    rw [hkids]
    rfl
  · rw [sanitizeBlock, dif_neg hv] at h
    cases h
termination_by v _ _ => sizeOf v
decreasing_by
  have := sizeOf_getMem hgm
  simp at this ⊢
  omega

theorem sanKids_propsPrim : ∀ xs : List JVal, propsPrimL (sanKids xs) = true := by
  intro xs
  match xs with
  | [] => rw [sanKids, propsPrimL]
  | k :: rest =>
    rw [sanKids]
    cases hk : sanitizeBlock k with
    | none => exact sanKids_propsPrim rest
    | some s =>
      rw [propsPrimL, sanitizeBlock_propsPrim k s hk, sanKids_propsPrim rest]
      rfl
termination_by xs => sizeOf xs
decreasing_by
  all_goals simp
  all_goals omega

end

/-- Top-level filter of the export flow:
`document.filter((block) => block && typeof block === "object" && block.type)`. -/
def topFilter (b : JVal) : Bool :=
  truthy b && isObjTy b && truthyOpt (getMem b "type")

/-- The per-block sanitize pass of `handleExportPDF`:
`document.filter(...).map(sanitizeBlock).filter(Boolean)`, with the map-then-
filter(Boolean) composite expressed as `filterMap`. -/
def sanDocList (xs : List JVal) : List JVal :=
  (xs.filter topFilter).filterMap sanitizeBlock

/-- The sanitize operation of the export flow (BlockNoteEditor.tsx lines
171-227): the JSON round-trip pass, then the explicit
`if (!Array.isArray(document)) throw new Error("Invalid document format: expected array")`
check — modelled as `Except.error` — then the per-block sanitize pass. -/
def exportSanitize (raw : JVal) : Except String (List JVal) :=
  match jsonRoundTrip raw with
  | .jarr xs => .ok (sanDocList xs)
  | _ => .error "Invalid document format: expected array"

theorem nrList_mem {xs : List JVal} {x : JVal} (h : nrList xs = true) (hx : x ∈ xs) :
    nrVal x = true := by
  induction xs with
  | nil => cases hx
  | cons y rest ih =>
    rw [nrList, Bool.and_eq_true] at h
    rcases List.mem_cons.mp hx with rfl | hx'
    · exact h.1
    · exact ih h.2 hx'

theorem nrList_of_forall {ys : List JVal} (h : ∀ y ∈ ys, nrVal y = true) :
    nrList ys = true := by
  induction ys with
  | nil => rw [nrList]
  | cons y rest ih =>
    rw [nrList, h y (List.mem_cons_self y rest), ih fun z hz => h z (List.mem_cons_of_mem y hz)]
    rfl

theorem mem_sanDocList {xs : List JVal} {y : JVal} (h : y ∈ sanDocList xs) :
    ∃ x ∈ xs, topFilter x = true ∧ sanitizeBlock x = some y := by
  rw [sanDocList] at h
  obtain ⟨x, hxmem, hxeq⟩ := List.mem_filterMap.mp h
  obtain ⟨hxs, hxf⟩ := List.mem_filter.mp hxmem
  exact ⟨x, hxs, hxf, hxeq⟩

theorem filterMap_sanitize_self {l : List JVal}
    (h : ∀ y ∈ l, sanitizeBlock y = some y) : l.filterMap sanitizeBlock = l := by
  induction l with
  | nil => rfl
  | cons y rest ih =>
    rw [List.filterMap_cons, h y (List.mem_cons_self y rest),
      ih fun z hz => h z (List.mem_cons_of_mem y hz)]

theorem topFilter_type {b : JVal} (h : topFilter b = true) :
    truthyOpt (getMem b "type") = true := by
  rw [topFilter, Bool.and_eq_true] at h
  exact h.2

theorem topFilter_san {v o : JVal} (ht : truthyOpt (getMem v "type") = true)
    (h : sanitizeBlock v = some o) : topFilter o = true := by
  by_cases hv : isObjLike v = true
  · rw [sanitizeBlock_eq_sanObj v hv, Option.some_inj] at h
    subst h
    rw [topFilter, getMem_sanObj_type, ht, sanObj, truthy, isObjTy]
    rfl
  · rw [sanitizeBlock, dif_neg hv] at h
    cases h

theorem rtList_map {ys : List JVal} (h : ∀ y ∈ ys, jsonRoundTrip y = y) :
    rtList ys = ys := by
  induction ys with
  | nil => rw [rtList]
  | cons y rest ih =>
    rw [rtList, h y (List.mem_cons_self y rest),
      ih fun z hz => h z (List.mem_cons_of_mem y hz)]

/-- Core facts about every element of a sanitize result: it has no reserved
keys, passes the top-level filter again, and is a fixed point of
`sanitizeBlock`. -/
theorem sanDocList_elem_props {xs : List JVal} (hnr : nrList xs = true) :
    ∀ y ∈ sanDocList xs,
      nrVal y = true ∧ topFilter y = true ∧ sanitizeBlock y = some y := by
  intro y hy
  obtain ⟨x, hxmem, hxf, hsan⟩ := mem_sanDocList hy
  have hxnr : nrVal x = true := nrList_mem hnr hxmem
  exact ⟨sanitizeBlock_nr x y hxnr hsan, topFilter_san (topFilter_type hxf) hsan,
    sanitizeBlock_idem x y hsan⟩

/-- C1, counterexample. The specification claims the sanitize operation
"never throws an exception" and "returns an array" for every input value,
naming `null` as one such input. In the code, `handleExportPDF` runs the
JSON round trip and then explicitly throws
`new Error("Invalid document format: expected array")` when the round-tripped
value is not an array, which is exactly what happens on the input `null`
(and likewise on `{}` or a plain string). -/
theorem c1_counterexample_null_throws :
    exportSanitize JVal.jnull = .error "Invalid document format: expected array" ∧
    ∀ ys : List JVal, exportSanitize JVal.jnull ≠ .ok ys := by
  constructor
  · rw [exportSanitize, jsonRoundTrip]
  · intro ys h
    rw [exportSanitize, jsonRoundTrip] at h
    cases h

/-- C1 (amended): for every input that deep-serializes to an array, the
sanitize operation of the export flow returns (never throws) an array of
valid blocks — each result block passes the top-level filter (a truthy
object with a truthy `type`) and is structurally well-formed (`content` an
array when present, `children` a well-formed block array when present,
`props` an object of primitive values when present). For a non-array input
value (such as `null`, a plain object or a string) the flow instead throws
its "Invalid document format" error. -/
theorem c1_amended_array_input_sanitizes :
    ∀ xs : List JVal, ∃ ys : List JVal,
      exportSanitize (.jarr xs) = .ok ys ∧
      ∀ b ∈ ys, topFilter b = true ∧ blockOkB b = true := by
  intro xs
  refine ⟨sanDocList (rtList xs), ?_, ?_⟩
  · rw [exportSanitize, jsonRoundTrip]
  · intro b hb
    obtain ⟨x, _, hxf, hsan⟩ := mem_sanDocList hb
    exact ⟨topFilter_san (topFilter_type hxf) hsan, sanitizeBlock_blockOk x b hsan⟩

/-- C2: the sanitize operation is idempotent — whenever it succeeds,
feeding its result back in returns the very same result, so sanitized data
is a fixed point of the operation. -/
theorem c2_sanitize_idempotent :
    ∀ (x : JVal) (ys : List JVal), exportSanitize x = .ok ys →
      exportSanitize (.jarr ys) = .ok ys := by
  intro x ys h
  rw [exportSanitize] at h
  split at h
  · rename_i xs hrt
    rw [Except.ok.injEq] at h
    subst h
    have hnr : nrList xs = true := by
      have := nrVal_jsonRoundTrip x
      rw [hrt, nrVal] at this
      exact this
    have helems := sanDocList_elem_props hnr
    generalize hgen : sanDocList xs = l at helems ⊢
    have hrt2 : jsonRoundTrip (.jarr l) = .jarr l := by
      rw [jsonRoundTrip, rtList_map fun y hy => jsonRoundTrip_of_nr y (helems y hy).1]
    rw [exportSanitize, hrt2]
    show Except.ok ((l.filter topFilter).filterMap sanitizeBlock) = Except.ok l
    rw [List.filter_eq_self.mpr fun y hy => (helems y hy).2.1,
      filterMap_sanitize_self fun y hy => (helems y hy).2.2]
  · cases h

/-- C2 witness: a concrete run of the sanitizer on a one-block document,
fed back through the sanitizer. -/
theorem c2_witness :
    exportSanitize (.jarr [.jobj [("type", .jstr "paragraph")]]) =
      .ok [.jobj [("type", .jstr "paragraph")]] :=
  c2_sanitize_idempotent
    (.jarr [.jobj [("type", .jstr "paragraph"), ("junk", .jobj [])]])
    [.jobj [("type", .jstr "paragraph")]]
    (by simp [exportSanitize, jsonRoundTrip, rtList, rtFields, reservedKey,
      sanDocList, topFilter, truthy, isObjTy, truthyOpt, getMem, lookupF,
      List.filterMap, sanitizeBlock, isObjLike, optEntry, sanId, sanContent,
      sanChildrenOpt, sanProps])

/-- C3: every block in a sanitize result satisfies the primitive-only props
invariant — all values in its `props` mapping are strings, numbers, booleans
or null, recursively through `children` (non-primitive prop values having
been dropped by the per-key copy). -/
theorem c3_sanitized_props_primitive :
    ∀ (raw : JVal) (ys : List JVal), exportSanitize raw = .ok ys →
      propsPrimL ys = true := by
  intro raw ys h
  rw [exportSanitize] at h
  split at h
  · rename_i xs hrt
    rw [Except.ok.injEq] at h
    subst h
    rw [sanDocList]
    generalize (xs.filter topFilter) = l
    induction l with
    | nil => rw [List.filterMap_nil, propsPrimL]
    | cons y rest ih =>
      rw [List.filterMap_cons]
      cases hy : sanitizeBlock y with
      | none => exact ih
      | some s =>
        rw [propsPrimL, sanitizeBlock_propsPrim y s hy, ih]
        rfl
  · cases h

/-- C3 witness: sanitizing a block whose `props` holds a string and a nested
object keeps only the string, and the result satisfies the invariant. -/
theorem c3_witness :
    propsPrimL [.jobj [("type", .jstr "paragraph"),
      ("props", .jobj [("a", .jstr "x")])]] = true :=
  c3_sanitized_props_primitive
    (.jarr [.jobj [("type", .jstr "paragraph"),
      ("props", .jobj [("a", .jstr "x"), ("b", .jobj [])])]])
    [.jobj [("type", .jstr "paragraph"), ("props", .jobj [("a", .jstr "x")])]]
    (by simp [exportSanitize, jsonRoundTrip, rtList, rtFields, reservedKey,
      sanDocList, topFilter, truthy, isObjTy, truthyOpt, getMem, lookupF,
      List.filterMap, sanitizeBlock, isObjLike, optEntry, sanId, sanContent,
      sanChildrenOpt, sanProps, entriesOf, isPrim])

/-- Unwrap a member-access result that is known to be present (used only
under truthiness guards, where the value cannot be `undefined`). -/
def jOf (o : Option JVal) : JVal := o.getD .jnull

theorem truthyOpt_some {o : Option JVal} (h : truthyOpt o = true) :
    ∃ c, o = some c ∧ truthy c = true := by
  cases o with
  | none => cases h
  | some c => exact ⟨c, rfl, h⟩

theorem sizeOf_jOf_getMem {v : JVal} {k : String}
    (h : truthyOpt (getMem v k) = true) : sizeOf (jOf (getMem v k)) < sizeOf v := by
  obtain ⟨c, hc, _⟩ := truthyOpt_some h
  rw [hc]
  exact sizeOf_getMem hc

/-- Strict-equality type test `v.type === t` for a string literal `t`. -/
def typeIs (v : JVal) (t : String) : Bool :=
  match getMem v "type" with
  | some (.jstr s) => s = t
  | _ => false

mutual

/-- JavaScript string coercion `String(v)` of a non-null value, as performed
by `Array.prototype.join` on the contributions collected by
`extractTextContent` (reachable only for a truthy non-string `item.text`). -/
def jsCoerceStr : JVal → String
  | .jnull => "null"
  | .jbool b => if b then "true" else "false"
  | .jnum n => toString n
  | .jstr s => s
  | .jarr xs => jsArrElems xs
  | .jobj _ => "[object Object]"
termination_by v => sizeOf v

/-- Array-to-string coercion: elements joined with commas, `null` elements
contributing the empty string. -/
def jsArrElems : List JVal → String
  | [] => ""
  | [.jnull] => ""
  | [x] => jsCoerceStr x
  | .jnull :: rest => "," ++ jsArrElems rest
  | x :: rest => jsCoerceStr x ++ "," ++ jsArrElems rest
termination_by xs => sizeOf xs
decreasing_by
  all_goals simp
  all_goals omega

end

mutual

/-- The plain-text extraction `extractTextContent` of pdfExport.tsx:
falsy content yields `""`; a string yields itself; an array joins the
per-item contributions with no separator; anything else yields `""`.
An `Except.error` models the TypeError thrown when a `null` array item is
reached (the code reads `item.type` unguarded). -/
def extractTextContent (content : JVal) : Except Unit String :=
  if truthy content = false then .ok ""
  else match content with
    | .jstr s => .ok s
    | .jarr items => do
        let parts ← extractItems items
        .ok (String.join parts)
    | _ => .ok ""
termination_by sizeOf content
decreasing_by
  simp

/-- Contributions of the items of an inline-content array. -/
def extractItems : List JVal → Except Unit (List String)
  | [] => .ok []
  | item :: rest => do
      let s ← extractItem item
      let r ← extractItems rest
      .ok (s :: r)
termination_by xs => sizeOf xs
decreasing_by
  all_goals simp
  all_goals omega

/-- Contribution of one inline item: a string contributes itself; a `text`
span with truthy `text` contributes that value (string-coerced by the later
join); a `link` span with truthy `content` recurses, as does any other item
with truthy `content`; anything else contributes `""`. Reading `item.type`
on `null` throws. -/
def extractItem (item : JVal) : Except Unit String :=
  match item with
  | .jstr s => .ok s
  | .jnull => .error ()
  | other =>
    if typeIs other "text" && truthyOpt (getMem other "text") then
      .ok (jsCoerceStr (jOf (getMem other "text")))
    else if h2 : typeIs other "link" && truthyOpt (getMem other "content") then
      extractTextContent (jOf (getMem other "content"))
    else if h3 : truthyOpt (getMem other "content") then
      extractTextContent (jOf (getMem other "content"))
    else .ok ""
termination_by sizeOf item
decreasing_by
  · have h2' : truthyOpt (getMem other "content") = true := by
      simp only [Bool.and_eq_true] at h2
      exact h2.2
    exact sizeOf_jOf_getMem h2'
  · exact sizeOf_jOf_getMem h3

end

/-- Extraction applied to a possibly-absent `block.content`
(`extractTextContent(undefined)` hits the falsy guard and yields `""`). -/
def extractTextO : Option JVal → Except Unit String
  | none => .ok ""
  | some c => extractTextContent c

/-- Resolved style of an output node: either no style prop, a reference into
the shared stylesheet, or inline presentation attributes. -/
inductive StyleV : Type where
  | noStyle : StyleV
  | sheet (name : String) : StyleV
  | inlineAttrs (attrs : List (String × String)) : StyleV

/-- Output nodes produced by the export rendering pipeline: plain string
children, raw non-renderable values passed through as children, `Text`,
`View`, `Image` and `Link` elements. React keys, which carry no content,
are not modelled. -/
inductive RNode : Type where
  | str (s : String) : RNode
  | raw (v : JVal) : RNode
  | textEl (style : StyleV) (children : List RNode) : RNode
  | viewEl (style : StyleV) (children : List RNode) : RNode
  | imageEl (src : JVal) (style : StyleV) : RNode
  | linkEl (src : String) (style : StyleV) (children : List RNode) : RNode

/-- A `JVal` interpolated as a JSX child: strings render as text runs,
anything else is passed through raw. -/
def toChild : JVal → RNode
  | .jstr s => .str s
  | v => .raw v

/-- The child `{item.text || ""}` of a text span. -/
def textChild : Option JVal → RNode
  | some t => if truthy t then toChild t else .str ""
  | none => .str ""

/-- The link target `item.href && typeof item.href === "string" ? item.href : "#"`. -/
def hrefOf : Option JVal → String
  | some (.jstr h) => if truthy (.jstr h) then h else "#"
  | _ => "#"

/-- Strict flag test `styles.k === true`. -/
def styleFlag (sv : JVal) (k : String) : Bool :=
  match getMem sv k with
  | some (.jbool true) => true
  | _ => false

/-- The guard `item.styles && typeof item.styles === "object" && Object.keys(item.styles).length > 0`. -/
def hasStylesB : Option JVal → Bool
  | some sv => truthy sv && isObjTy sv && !(entriesOf sv).isEmpty
  | none => false

/-- The `textStyle` dictionary built by `renderInlineContent` for a `text`
span, flattened to attribute pairs in first-assignment order. The source
assigns `textDecoration` twice (underline then strikethrough); in a
JavaScript object the second assignment overwrites the first, so a span
with both flags carries `line-through`. -/
def computeTextStyle (so : Option JVal) : List (String × String) :=
  if hasStylesB so then
    let sv := jOf so
    (if styleFlag sv "bold" then [("fontWeight", "bold")] else []) ++
    (if styleFlag sv "italic" then [("fontStyle", "italic")] else []) ++
    (if styleFlag sv "strikethrough" then [("textDecoration", "line-through")]
     else if styleFlag sv "underline" then [("textDecoration", "underline")] else []) ++
    (if styleFlag sv "code" then
      [("fontFamily", "Courier"), ("backgroundColor", "#f5f5f5"),
       ("padding", "2"), ("fontSize", "10")] else [])
  else []

mutual

/-- The `renderInlineContent` of pdfExport.tsx as a list of output nodes:
falsy content renders nothing (`null`); a string is returned as a bare text
run; an array maps its items (React drops the `null` results, modelled by
flattening); any other truthy value is returned raw. -/
def renderInlineContent (content : JVal) : List RNode :=
  if truthy content = false then []
  else match content with
    | .jstr s => [.str s]
    | .jarr items => inlineItems items
    | v => [.raw v]
termination_by sizeOf content
decreasing_by
  simp

/-- Mapped inline items, with `null` results dropped. -/
def inlineItems : List JVal → List RNode
  | [] => []
  | item :: rest => inlineItem item ++ inlineItems rest
termination_by xs => sizeOf xs
decreasing_by
  all_goals simp
  all_goals omega

/-- One inline item: falsy items render nothing; plain strings become a bare
`Text`; `text` spans get their computed style and `{item.text || ""}` child;
`link` spans wrap their recursively rendered content in a `Link` with the
stylesheet link style; everything else renders nothing. -/
def inlineItem (item : JVal) : List RNode :=
  if truthy item = false then []
  else match item with
    | .jstr s => [.textEl .noStyle [.str s]]
    | other =>
      if typeIs other "text" then
        [.textEl
          (if (computeTextStyle (getMem other "styles")).isEmpty then .noStyle
           else .inlineAttrs (computeTextStyle (getMem other "styles")))
          [textChild (getMem other "text")]]
      else if typeIs other "link" then
        [.linkEl (hrefOf (getMem other "href")) (.sheet "link")
          (match hlc : getMem other "content" with
           | some c => renderInlineContent c
           | none => [])]
      else []
termination_by sizeOf item
decreasing_by
  have := sizeOf_getMem hlc
  omega

end

/-- Inline rendering of a possibly-absent `block.content`. -/
def renderInlineO : Option JVal → List RNode
  | none => []
  | some c => renderInlineContent c

theorem one_le_sizeOf_jval (v : JVal) : 1 ≤ sizeOf v := by
  cases v <;> simp <;> omega

/-- The optional-chain access `node.props?.url`. -/
def propsUrl (v : JVal) : Option JVal :=
  (getMem v "props").bind fun p => getMem p "url"

/-- The qualification test of `findFirstImage`:
`node.type === "image" && node.props?.url` — the block is of type `image`
and carries a truthy URL property (for a string URL, truthy means
non-empty). -/
def isImageWithUrl (v : JVal) : Bool :=
  typeIs v "image" && truthyOpt (propsUrl v)

/-- The returned `node.props.url` of a qualifying node. -/
def urlOf (v : JVal) : JVal := jOf (propsUrl v)

theorem truthy_urlOf {n : JVal} (h : isImageWithUrl n = true) :
    truthy (urlOf n) = true := by
  rw [isImageWithUrl, Bool.and_eq_true] at h
  obtain ⟨u, hu, hut⟩ := truthyOpt_some h.2
  rw [urlOf, hu]
  exact hut

theorem one_le_sizeOf_opt (o : Option JVal) : 1 ≤ sizeOf o := by
  cases o <;> simp <;> omega

theorem sizeOf_getMem_le (v : JVal) (k : String) : sizeOf (getMem v k) ≤ sizeOf v := by
  cases hg : getMem v k with
  | none =>
    have := one_le_sizeOf_jval v
    simp
    omega
  | some w =>
    cases v <;> simp [getMem] at hg
    have := sizeOf_lookupF hg
    simp
    omega

mutual

/-- The `findFirstImage` of pdfExport.tsx (ProjectCard.tsx carries an
identical copy without the leading `Array.isArray` guard, which on a list
argument never fires): scan the blocks left to right; return the `url` prop
of the first `image` block with a truthy URL; otherwise recurse into an
array-valued `content` and keep a truthy nested result; return `""` when
nothing is found. Reading `node.type` on a `null` entry throws. -/
def findFirstImage : List JVal → Except Unit JVal
  | [] => .ok (.jstr "")
  | .jnull :: _ => .error ()
  | node :: rest =>
    if isImageWithUrl node then .ok (urlOf node)
    else findFirstImageCont (getMem node "content") rest
termination_by l => sizeOf l
decreasing_by
  exact Nat.lt_of_le_of_lt (Nat.add_le_add_right (sizeOf_getMem_le _ _) _)
    (by simp)

/-- Continuation of the scan after a non-qualifying node, given its
`content` member: recurse into an array-valued `content` first, keep a
truthy nested result, then move on to the remaining siblings. -/
def findFirstImageCont : Option JVal → List JVal → Except Unit JVal
  | some (.jarr xs), rest =>
    (match findFirstImage xs with
     | .error e => .error e
     | .ok nested => if truthy nested then .ok nested else findFirstImage rest)
  | none, rest => findFirstImage rest
  | some .jnull, rest => findFirstImage rest
  | some (.jbool b), rest => findFirstImage rest
  | some (.jnum n), rest => findFirstImage rest
  | some (.jstr s), rest => findFirstImage rest
  | some (.jobj fs), rest => findFirstImage rest
termination_by co rest => sizeOf co + sizeOf rest
decreasing_by
  all_goals simp
  all_goals omega

end

mutual

/-- Depth-first, left-to-right enumeration of the nodes `findFirstImage`
can visit: each node, then the nodes of its array-valued `content`, then
its right siblings; `children` are never entered. This is the traversal
order stated by the specification. -/
def contentDFS : List JVal → List JVal
  | [] => []
  | node :: rest => node :: (contentKids (getMem node "content") ++ contentDFS rest)
termination_by l => sizeOf l
decreasing_by
  all_goals simp
  all_goals exact Nat.lt_of_le_of_lt (sizeOf_getMem_le _ _) (by omega)

/-- Nodes of an array-valued `content` member. -/
def contentKids : Option JVal → List JVal
  | some (.jarr xs) => contentDFS xs
  | _ => []
termination_by o => sizeOf o
decreasing_by
  simp
  omega

end

theorem findFirstImageCont_non_arr {c : JVal} (h : ∀ xs, c ≠ .jarr xs)
    (rest : List JVal) : findFirstImageCont (some c) rest = findFirstImage rest := by
  cases c
  case jarr xs => exact absurd rfl (h xs)
  all_goals rw [findFirstImageCont]
  all_goals simp

theorem contentKids_non_arr {c : JVal} (h : ∀ xs, c ≠ .jarr xs) :
    contentKids (some c) = [] := by
  cases c
  case jarr xs => exact absurd rfl (h xs)
  all_goals rw [contentKids]
  all_goals simp

/-- C5: `findFirstImage` is the deterministic first-image lookup of the
specification — for every block sequence (null-free along the `content`
axis, which is all `findFirstImage` ever visits), it returns the URL
property of the first qualifying block (type `image` with a truthy, i.e.
non-empty, URL) in the depth-first, left-to-right traversal that recurses
only into `content` (never `children`), and returns the empty string when no
block in the whole traversal qualifies. -/
theorem c5_findFirstImage_first_in_dfs :
    ∀ l : List JVal, (∀ v ∈ contentDFS l, v ≠ JVal.jnull) →
      findFirstImage l = .ok (match (contentDFS l).find? isImageWithUrl with
        | some n => urlOf n
        | none => .jstr "") := by
  intro l hnn
  match l with
  | [] =>
    rw [contentDFS, findFirstImage]
    rfl
  | node :: rest =>
    have hnode : node ≠ JVal.jnull := by
      apply hnn
      rw [contentDFS]
      exact List.mem_cons_self _ _
    have hrest : ∀ v ∈ contentDFS rest, v ≠ JVal.jnull := by
      intro v hv
      apply hnn
      rw [contentDFS]
      exact List.mem_cons_of_mem _ (List.mem_append_right _ hv)
    have hkids : ∀ v ∈ contentKids (getMem node "content"), v ≠ JVal.jnull := by
      intro v hv
      apply hnn
      rw [contentDFS]
      exact List.mem_cons_of_mem _ (List.mem_append_left _ hv)
    have hstep : findFirstImage (node :: rest) =
        if isImageWithUrl node then .ok (urlOf node)
        else findFirstImageCont (getMem node "content") rest := by
      cases node
      · exact absurd rfl hnode
      all_goals rw [findFirstImage]
      all_goals simp
    rw [hstep, contentDFS]
    by_cases himg : isImageWithUrl node = true
    · rw [if_pos himg, List.find?_cons_of_pos _ himg]
    · rw [if_neg himg, List.find?_cons_of_neg _ himg, List.find?_append]
      cases hgc : getMem node "content" with
      | none =>
        have h1 : findFirstImageCont (none : Option JVal) rest = findFirstImage rest := by
          rw [findFirstImageCont]
          all_goals simp
        have h2 : contentKids (none : Option JVal) = [] := by
          rw [contentKids]
          all_goals simp
        rw [h1, h2, c5_findFirstImage_first_in_dfs rest hrest]
        simp only [List.find?_nil, Option.none_or]
      | some c =>
        rw [hgc] at hkids
        by_cases harr : ∃ xs, c = JVal.jarr xs
        · obtain ⟨xs, rfl⟩ := harr
          have hk2 : ∀ v ∈ contentDFS xs, v ≠ JVal.jnull := by
            intro v hv
            exact hkids v (by rw [contentKids]; exact hv)
          have h1 : findFirstImageCont (some (JVal.jarr xs)) rest =
              (match findFirstImage xs with
               | .error e => .error e
               | .ok nested =>
                   if truthy nested then .ok nested else findFirstImage rest) := by
            rw [findFirstImageCont]
          have h2 : contentKids (some (JVal.jarr xs)) = contentDFS xs := by
            rw [contentKids]
            all_goals simp
          rw [h1, h2, c5_findFirstImage_first_in_dfs xs hk2]
          cases hfx : (contentDFS xs).find? isImageWithUrl with
          | some m =>
            have hm : isImageWithUrl m = true := List.find?_some hfx
            simp [truthy_urlOf hm]
          | none =>
            have hr := c5_findFirstImage_first_in_dfs rest hrest
            simp [truthy, hr]
        · have hne : ∀ xs, c ≠ JVal.jarr xs := by
            intro xs hxs
            exact harr ⟨xs, hxs⟩
          rw [findFirstImageCont_non_arr hne rest, contentKids_non_arr hne,
            c5_findFirstImage_first_in_dfs rest hrest]
          simp only [List.find?_nil, Option.none_or]
termination_by l _ => sizeOf l
decreasing_by
  all_goals try (have h1 := sizeOf_getMem hgc; simp at h1)
  all_goals try simp
  all_goals omega

/-- C5 witness: a sequence with no image block anywhere yields the empty
string. -/
theorem c5_witness :
    findFirstImage [.jobj [("type", .jstr "paragraph")],
      .jobj [("type", .jstr "divider")]] = .ok (.jstr "") := by
  have h := c5_findFirstImage_first_in_dfs
    [.jobj [("type", .jstr "paragraph")], .jobj [("type", .jstr "divider")]]
    (by simp [contentDFS, contentKids, getMem, lookupF])
  simpa [contentDFS, contentKids, getMem, lookupF, List.find?, isImageWithUrl,
    typeIs, propsUrl, truthyOpt] using h

/-- Opening brace character. -/
def obChar : Char := Char.ofNat 123

/-- Closing brace character. -/
def cbChar : Char := Char.ofNat 125

/-- JSON whitespace skipping. -/
def skipWs : List Char → List Char
  | [] => []
  | c :: rest =>
    if c = ' ' || c = '\t' || c = '\n' || c = '\r' then skipWs rest else c :: rest

/-- Expect a literal character sequence. -/
def parseLit : List Char → List Char → Option (List Char)
  | [], cs => some cs
  | l :: ls, c :: cs => if c = l then parseLit ls cs else none
  | _ :: _, [] => none

/-- Longest digit run at the front of the input. -/
def takeDigits : List Char → List Char × List Char
  | [] => ([], [])
  | c :: cs =>
    if c.isDigit then
      let p := takeDigits cs
      (c :: p.1, p.2)
    else ([], c :: cs)

/-- Value of a digit run. -/
def digitsToNat (ds : List Char) : Nat :=
  ds.foldl (fun acc c => acc * 10 + (c.toNat - 48)) 0

/-- Escape resolution inside a JSON string (the `\u` form and exotic escapes
are not modelled; inputs using them count as invalid encodings, which the
translated code treats the same way as any other decode failure). -/
def escCh (e : Char) : Option Char :=
  if e = '"' then some '"'
  else if e = '\\' then some '\\'
  else if e = '/' then some '/'
  else if e = 'n' then some '\n'
  else if e = 't' then some '\t'
  else if e = 'r' then some '\r'
  else if e = 'b' then some (Char.ofNat 8)
  else if e = 'f' then some (Char.ofNat 12)
  else none

/-- Characters of a JSON string body up to the closing quote. -/
def parseStrChars : List Char → Option (List Char × List Char)
  | [] => none
  | c :: rest =>
    if c = '"' then some ([], rest)
    else if c = '\\' then
      match rest with
      | [] => none
      | e :: rest2 =>
        match escCh e with
        | some ch => (parseStrChars rest2).map fun p => (ch :: p.1, p.2)
        | none => none
    else (parseStrChars rest).map fun p => (c :: p.1, p.2)

/-- Integer literal (JSON fractions and exponents are not modelled; a
document carrying them counts as an invalid encoding). -/
def parseNum : List Char → Option (JVal × List Char)
  | cs =>
    match cs with
    | '-' :: rest =>
      match takeDigits rest with
      | ([], _) => none
      | (ds, r) => some (.jnum (-(digitsToNat ds : Int)), r)
    | _ =>
      match takeDigits cs with
      | ([], _) => none
      | (ds, r) => some (.jnum (digitsToNat ds), r)

mutual

/-- Recursive-descent model of `JSON.parse` for one value; the fuel bounds
the recursion and is chosen generously by `jsonParse`. -/
def parseVal : Nat → List Char → Option (JVal × List Char)
  | 0, _ => none
  | fuel + 1, cs =>
    match skipWs cs with
    | [] => none
    | c :: rest =>
      if c = 'n' then (parseLit ['u', 'l', 'l'] rest).map fun r => (JVal.jnull, r)
      else if c = 't' then (parseLit ['r', 'u', 'e'] rest).map fun r => (JVal.jbool true, r)
      else if c = 'f' then (parseLit ['a', 'l', 's', 'e'] rest).map fun r => (JVal.jbool false, r)
      else if c = '"' then (parseStrChars rest).map fun p => (JVal.jstr (String.mk p.1), p.2)
      else if c = '[' then
        match skipWs rest with
        | c2 :: r2 =>
          if c2 = ']' then some (.jarr [], r2)
          else (parseElems fuel (c2 :: r2)).map fun p => (JVal.jarr p.1, p.2)
        | [] => none
      else if c = obChar then
        match skipWs rest with
        | c2 :: r2 =>
          if c2 = cbChar then some (.jobj [], r2)
          else (parseFields fuel (c2 :: r2)).map fun p => (JVal.jobj p.1, p.2)
        | [] => none
      else if c = '-' || c.isDigit then parseNum (c :: rest)
      else none

/-- Comma-separated array elements up to `]`. -/
def parseElems : Nat → List Char → Option (List JVal × List Char)
  | 0, _ => none
  | fuel + 1, cs =>
    match parseVal fuel cs with
    | none => none
    | some (v, r) =>
      match skipWs r with
      | c :: r2 =>
        if c = ',' then (parseElems fuel r2).map fun p => (v :: p.1, p.2)
        else if c = ']' then some ([v], r2)
        else none
      | [] => none

/-- Comma-separated object fields up to the closing brace. -/
def parseFields : Nat → List Char → Option (List (String × JVal) × List Char)
  | 0, _ => none
  | fuel + 1, cs =>
    match skipWs cs with
    | c :: rest =>
      if c = '"' then
        match parseStrChars rest with
        | none => none
        | some (kcs, r) =>
          match skipWs r with
          | c2 :: r2 =>
            if c2 = ':' then
              match parseVal fuel r2 with
              | none => none
              | some (v, r3) =>
                match skipWs r3 with
                | c3 :: r4 =>
                  if c3 = ',' then
                    (parseFields fuel r4).map fun p => ((String.mk kcs, v) :: p.1, p.2)
                  else if c3 = cbChar then some ([(String.mk kcs, v)], r4)
                  else none
                | [] => none
            else none
          | [] => none
      else none
    | [] => none

end

/-- Model of `JSON.parse`: parse one value with generous fuel and require
only trailing whitespace; `none` models a thrown `SyntaxError`. -/
def jsonParse (s : String) : Option JVal :=
  match parseVal (4 * s.data.length + 8) s.data with
  | some (v, rest) => if (skipWs rest).isEmpty then some v else none
  | none => none

/-- Escaping of `"` and backslash for `JSON.stringify` string output. -/
def escChars : List Char → List Char
  | [] => []
  | c :: rest =>
    if c = '"' || c = '\\' then '\\' :: c :: escChars rest
    else c :: escChars rest

mutual

/-- Model of `JSON.stringify` on plain data, used as the opaque serialized
form of nested documents. -/
def jsonStringify : JVal → String
  | .jnull => "null"
  | .jbool b => if b then "true" else "false"
  | .jnum n => toString n
  | .jstr s => "\"" ++ String.mk (escChars s.data) ++ "\""
  | .jarr xs => "[" ++ strElems xs ++ "]"
  | .jobj fs => String.mk [obChar] ++ strFields fs ++ String.mk [cbChar]
termination_by v => sizeOf v

/-- Serialized array elements. -/
def strElems : List JVal → String
  | [] => ""
  | [x] => jsonStringify x
  | x :: rest => jsonStringify x ++ "," ++ strElems rest
termination_by xs => sizeOf xs
decreasing_by
  all_goals simp
  all_goals omega

/-- Serialized object fields. -/
def strFields : List (String × JVal) → String
  | [] => ""
  | [(k, v)] => "\"" ++ String.mk (escChars k.data) ++ "\":" ++ jsonStringify v
  | (k, v) :: rest =>
    "\"" ++ String.mk (escChars k.data) ++ "\":" ++ jsonStringify v ++ "," ++ strFields rest
termination_by fs => sizeOf fs
decreasing_by
  all_goals simp
  all_goals omega

end

/-- Model of JavaScript `String.prototype.trim`: strip leading and trailing
whitespace (the same whitespace set as the JSON parser's `skipWs`). -/
def jsTrim (s : String) : String :=
  String.mk ((skipWs (skipWs s.data).reverse).reverse)

/-- Access `block.props?.k`. -/
def propOf (block : JVal) (k : String) : Option JVal :=
  (getMem block "props").bind fun p => getMem p k

/-- Rendering of a falsy value interpolated by `{x && ...}`: `false`,
`null`, `undefined` and `""` render nothing, the number `0` renders as a
raw child. -/
def falsyChild : JVal → List RNode
  | .jnum 0 => [.raw (.jnum 0)]
  | _ => []

/-- The heading level `block.props?.level || 1`. -/
def headingLevel (block : JVal) : JVal :=
  match propOf block "level" with
  | some l => if truthy l then l else .jnum 1
  | none => .jnum 1

/-- Heading style selection `level === 1 ? heading1 : level === 2 ? heading2 : heading3`. -/
def headingSheet : JVal → String
  | .jnum 1 => "heading1"
  | .jnum 2 => "heading2"
  | _ => "heading3"

/-- The caption part of an image block:
`{block.props?.caption && <Text style=...>{block.props.caption}</Text>}`. -/
def captionPart (block : JVal) : List RNode :=
  match propOf block "caption" with
  | some cap =>
    if truthy cap then
      [.textEl (.inlineAttrs [("fontSize", "10"), ("color", "#6b7280"), ("marginTop", "4")])
        [toChild cap]]
    else falsyChild cap
  | none => []

/-- The card title `block.props?.title || "Untitled Project"`. -/
def cardTitleVal (block : JVal) : JVal :=
  match propOf block "title" with
  | some t => if truthy t then t else .jstr "Untitled Project"
  | none => .jstr "Untitled Project"

/-- The cover-image part of a project card:
`{coverImage && typeof coverImage === "string" && coverImage.trim() && <Image .../>}` —
an image node exactly for a non-blank string; a truthy non-string or a
blank/empty string renders nothing; a falsy non-string renders per
`falsyChild`. -/
def cardCoverPart (block : JVal) : List RNode :=
  match propOf block "coverImage" with
  | some (.jstr s) =>
    if truthy (.jstr s) then
      if jsTrim s = "" then [] else [.imageEl (.jstr s) (.sheet "projectCardImage")]
    else []
  | some c => if truthy c then [] else falsyChild c
  | none => []

/-- The decoded nested content of a project card: when
`block.props?.nestedContent` is truthy, `JSON.parse` it (JavaScript first
string-coerces the argument); keep an array result filtered to valid blocks
(`b && typeof b === "object" && b.type`); a parse failure or non-array
result leaves the nested content absent. -/
def cardNested (block : JVal) : Option (List JVal) :=
  match propOf block "nestedContent" with
  | some nc =>
    if truthy nc then
      match jsonParse (jsCoerceStr nc) with
      | some (.jarr parsed) => some (parsed.filter topFilter)
      | _ => none
    else none
  | none => none

/-- The ordinal printed for a numbered list item: `(listIndex || 0) + 1`
(`listIndex` is `undefined` outside a numbered group, and `0 || 0` is `0`,
so this is `getD 0` plus one). -/
def ordinalShown (listIndex : Option Nat) : Nat := listIndex.getD 0 + 1

/-- The shared layout of bullet and numbered list items: a `listItem` row
holding the marker text and a `listItemText` column with the inline content
followed by the rendered children. Number children render as their decimal
text, so the marker `{(listIndex || 0) + 1}.` is modelled as one string. -/
def listItemNode (marker : String) (inl : List RNode) (kids : List RNode) : RNode :=
  .viewEl (.sheet "listItem")
    [.textEl (.sheet "listItemBullet") [.str marker],
     .viewEl (.sheet "listItemText") (.textEl .noStyle inl :: kids)]

/-- The default branch of `renderBlock` for unknown block types: emit the
extracted plain text as a paragraph when non-blank, else nothing. -/
def unknownFallback (block : JVal) : Except Unit (Option RNode) :=
  match extractTextO (getMem block "content") with
  | .error e => .error e
  | .ok s =>
    if jsTrim s = "" then .ok none
    else .ok (some (.textEl (.sheet "paragraph") [.str s]))

mutual

/-- The `renderBlock` of pdfExport.tsx. The fuel argument only bounds the
recursion depth (needed because the `projectCard` case recurses into blocks
decoded from a string); every JavaScript-reachable input terminates, and
the theorems quantify over sufficient fuel. `Except.error` models a thrown
TypeError (`null`/non-array `.map` misuse inside the bullet/numbered
cases or a `null` inline item inside `extractTextContent`); the guard
`if (!block || !block.type) return null` is the leading test. -/
def renderBlock : Nat → JVal → Option Nat → Except Unit (Option RNode)
  | 0, _, _ => .error ()
  | n + 1, block, listIndex =>
    if !(truthy block && truthyOpt (getMem block "type")) then .ok none
    else
      match getMem block "type" with
      | some (.jstr t) =>
        if t = "heading" then
          .ok (some (.textEl (.sheet (headingSheet (headingLevel block)))
            (renderInlineO (getMem block "content"))))
        else if t = "paragraph" then
          match extractTextO (getMem block "content") with
          | .error e => .error e
          | .ok s =>
            if jsTrim s = "" then .ok (some (.viewEl (.inlineAttrs [("height", "8")]) []))
            else .ok (some (.textEl (.sheet "paragraph")
              (renderInlineO (getMem block "content"))))
        else if t = "bulletListItem" then
          match getMem block "children" with
          | some (.jarr xs) =>
            (match renderKids n xs with
             | .error e => .error e
             | .ok kids => .ok (some (listItemNode "•"
                 (renderInlineO (getMem block "content")) kids)))
          | some c =>
            if truthy c then .error ()
            else .ok (some (listItemNode "•"
              (renderInlineO (getMem block "content")) (falsyChild c)))
          | none => .ok (some (listItemNode "•"
              (renderInlineO (getMem block "content")) []))
        else if t = "numberedListItem" then
          match getMem block "children" with
          | some (.jarr xs) =>
            (match renderKids n xs with
             | .error e => .error e
             | .ok kids => .ok (some (listItemNode
                 (toString (ordinalShown listIndex) ++ ".")
                 (renderInlineO (getMem block "content")) kids)))
          | some c =>
            if truthy c then .error ()
            else .ok (some (listItemNode (toString (ordinalShown listIndex) ++ ".")
              (renderInlineO (getMem block "content")) (falsyChild c)))
          | none => .ok (some (listItemNode (toString (ordinalShown listIndex) ++ ".")
              (renderInlineO (getMem block "content")) []))
        else if t = "image" then
          match propOf block "url" with
          | some u =>
            if truthy u then
              .ok (some (.viewEl .noStyle
                ([.imageEl u (.sheet "image")] ++ captionPart block)))
            else .ok none
          | none => .ok none
        else if t = "codeBlock" then
          match extractTextO (getMem block "content") with
          | .error e => .error e
          | .ok code => .ok (some (.viewEl (.sheet "codeBlock")
              [.textEl (.inlineAttrs [("fontFamily", "Courier")]) [.str code]]))
        else if t = "quote" then
          .ok (some (.viewEl (.sheet "quote")
            [.textEl .noStyle (renderInlineO (getMem block "content"))]))
        else if t = "divider" then
          .ok (some (.viewEl (.sheet "divider") []))
        else if t = "projectCard" then
          .ok (some (.viewEl (.sheet "projectCard")
            ([.textEl (.sheet "projectCardTitle") [toChild (cardTitleVal block)]] ++
             cardCoverPart block ++
             (match cardNested block with
              | some nested =>
                if nested.isEmpty then []
                else [.viewEl (.sheet "projectCardContent") (renderCardKids n nested)]
              | none => []))))
        else unknownFallback block
      | some _ => unknownFallback block
      | none => .ok none
termination_by n _ _ => (n, 0)

/-- The children mapping `block.children.map((child, idx) => renderBlock(child, idx))`
of the list-item cases, with `null` results dropped by React and errors
propagating (the call sites carry no try/catch). -/
def renderKids : Nat → List JVal → Except Unit (List RNode)
  | _, [] => .ok []
  | n, b :: rest =>
    match renderBlock n b none with
    | .error e => .error e
    | .ok r =>
      match renderKids n rest with
      | .error e => .error e
      | .ok rs => .ok ((match r with | some x => [x] | none => []) ++ rs)
termination_by n xs => (n, xs.length + 1)

/-- The nested-content mapping of the `projectCard` case: each nested block
is rendered inside its own try/catch, so a per-block error is swallowed
(`return null`) instead of propagating. -/
def renderCardKids : Nat → List JVal → List RNode
  | _, [] => []
  | n, b :: rest =>
    (match renderBlock n b none with
     | .ok (some x) => [x]
     | _ => []) ++ renderCardKids n rest
termination_by n xs => (n, xs.length + 1)

end

theorem length_dropWhile_le {α : Type} (p : α → Bool) (l : List α) :
    (l.dropWhile p).length ≤ l.length := by
  induction l with
  | nil => simp
  | cons a rest ih =>
    rw [List.dropWhile_cons]
    by_cases hp : p a = true
    · rw [if_pos hp]
      simp
      omega
    · rw [if_neg hp]

/-- Processed top-level entries of `PDFDocument`: either a synthetic
`numberedList` container holding a run of numbered items, or a single
pass-through block. -/
inductive PB : Type where
  | numberedList (items : List JVal) : PB
  | plain (b : JVal) : PB

/-- Flushing the accumulated run of numbered items in front of the rest of
the output, as `PDFDocument` does whenever a non-numbered block (or the end
of the document) is reached. -/
def flushRun (run : List JVal) (acc : List PB) : List PB :=
  if run.isEmpty then acc else .numberedList run :: acc

/-- The forward grouping pass of `PDFDocument` (lines 503-528): accumulate
consecutive `numberedListItem` blocks, flush the run when another block
type appears and push that block through unchanged, and flush any remaining
run at the end. Reading `block.type` on a `null` entry throws. -/
def groupAux (run : List JVal) : List JVal → Except Unit (List PB)
  | [] => .ok (flushRun run [])
  | .jnull :: _ => .error ()
  | b :: rest =>
    if typeIs b "numberedListItem" then groupAux (run ++ [b]) rest
    else
      match groupAux [] rest with
      | .error e => .error e
      | .ok tail => .ok (flushRun run (.plain b :: tail))

/-- The grouping pass over a whole document. -/
def groupBlocks (doc : List JVal) : Except Unit (List PB) := groupAux [] doc

/-- The grouping stated by the specification: the maximal runs of
consecutive `numberedListItem` blocks become `numberedList` containers, and
every other block passes through, in order, as an individual unit. -/
def groupSpec : List JVal → List PB
  | [] => []
  | b :: rest =>
    if typeIs b "numberedListItem" then
      .numberedList (b :: rest.takeWhile fun x => typeIs x "numberedListItem") ::
        groupSpec (rest.dropWhile fun x => typeIs x "numberedListItem")
    else .plain b :: groupSpec rest
termination_by l => l.length
decreasing_by
  · have := length_dropWhile_le (fun x => typeIs x "numberedListItem") rest
    simp
    omega
  · simp

/-- Rendering of the items of a numbered group:
`block.items.map((item, itemIndex) => renderBlock(item, itemIndex, itemIndex))`. -/
def renderItems (n : Nat) (i : Nat) : List JVal → Except Unit (List RNode)
  | [] => .ok []
  | b :: rest =>
    match renderBlock n b (some i) with
    | .error e => .error e
    | .ok r =>
      match renderItems n (i + 1) rest with
      | .error e => .error e
      | .ok rs => .ok ((match r with | some x => [x] | none => []) ++ rs)

/-- Rendering of one processed entry: a numbered group becomes a
`numberedList` view holding its items with their group-relative indices;
a pass-through block is rendered with no `listIndex`. -/
def renderPB (n : Nat) : PB → Except Unit (List RNode)
  | .numberedList items =>
    match renderItems n 0 items with
    | .error e => .error e
    | .ok nodes => .ok [.viewEl (.sheet "numberedList") nodes]
  | .plain b =>
    match renderBlock n b none with
    | .error e => .error e
    | .ok r => .ok (match r with | some x => [x] | none => [])

/-- Rendering of the processed entry sequence. -/
def renderPBs (n : Nat) : List PB → Except Unit (List RNode)
  | [] => .ok []
  | pb :: rest =>
    match renderPB n pb with
    | .error e => .error e
    | .ok a =>
      match renderPBs n rest with
      | .error e => .error e
      | .ok b => .ok (a ++ b)

/-- The content portion of `PDFDocument`: the grouping pass followed by the
per-entry rendering (the constant title and footer nodes surrounding it are
not modelled). -/
def renderContent (n : Nat) (doc : List JVal) : Except Unit (List RNode) :=
  match groupBlocks doc with
  | .error e => .error e
  | .ok pbs => renderPBs n pbs

theorem groupSpec_flush (l : List JVal) :
    flushRun (l.takeWhile fun x => typeIs x "numberedListItem")
      (groupSpec (l.dropWhile fun x => typeIs x "numberedListItem")) = groupSpec l := by
  match l with
  | [] => simp [groupSpec, flushRun]
  | b :: rest =>
    rw [List.takeWhile_cons, List.dropWhile_cons]
    by_cases hb : typeIs b "numberedListItem" = true
    · rw [if_pos hb, if_pos hb, flushRun]
      rw [groupSpec, if_pos hb]
      simp
    · rw [if_neg hb, if_neg hb, flushRun]
      simp

theorem groupAux_spec (l : List JVal) : ∀ run : List JVal,
    (∀ b ∈ l, b ≠ JVal.jnull) →
    groupAux run l = .ok (flushRun (run ++ l.takeWhile fun x => typeIs x "numberedListItem")
      (groupSpec (l.dropWhile fun x => typeIs x "numberedListItem"))) := by
  induction l with
  | nil =>
    intro run _
    rw [groupAux]
    simp [groupSpec]
  | cons b rest ih =>
    intro run hnn
    have hb : b ≠ JVal.jnull := hnn b (List.mem_cons_self _ _)
    have hrest : ∀ x ∈ rest, x ≠ JVal.jnull := fun x hx => hnn x (List.mem_cons_of_mem _ hx)
    have hstep : groupAux run (b :: rest) =
        (if typeIs b "numberedListItem" then groupAux (run ++ [b]) rest
         else
           match groupAux [] rest with
           | .error e => .error e
           | .ok tail => .ok (flushRun run (.plain b :: tail))) := by
      cases b
      · exact absurd rfl hb
      all_goals rw [groupAux]
      all_goals simp
    rw [hstep, List.takeWhile_cons, List.dropWhile_cons]
    by_cases hnum : typeIs b "numberedListItem" = true
    · rw [if_pos hnum, if_pos hnum, if_pos hnum, ih (run ++ [b]) hrest]
      simp
    · rw [if_neg hnum, if_neg hnum, if_neg hnum, ih [] hrest]
      simp only [List.nil_append]
      rw [groupSpec_flush rest]
      rw [show run ++ ([] : List JVal) = run from List.append_nil run]
      simp [groupSpec, hnum, flushRun]

/-- C4: numbered-list contiguity. First conjunct (general): on a null-free
document the grouping pass of `PDFDocument` produces exactly the maximal
runs of consecutive `numberedListItem` blocks as `numberedList` containers,
every other block (bullet items included) passing through ungrouped as an
individual unit. Second conjunct (concrete): rendering
`[numberedListItem A, numberedListItem B, paragraph C, numberedListItem D]`
assigns the ordinals `1.` and `2.` to A and B and restarts at `1.` for D,
with C rendered as an individual paragraph between the two groups. -/
theorem c4_numbered_grouping :
    (∀ l : List JVal, (∀ b ∈ l, b ≠ JVal.jnull) →
      groupBlocks l = .ok (groupSpec l)) ∧
    renderContent 1
      [.jobj [("type", .jstr "numberedListItem"), ("content", .jstr "A")],
       .jobj [("type", .jstr "numberedListItem"), ("content", .jstr "B")],
       .jobj [("type", .jstr "paragraph"), ("content", .jstr "C")],
       .jobj [("type", .jstr "numberedListItem"), ("content", .jstr "D")]] =
    .ok [.viewEl (.sheet "numberedList")
           [listItemNode "1." [.str "A"] [], listItemNode "2." [.str "B"] []],
         .textEl (.sheet "paragraph") [.str "C"],
         .viewEl (.sheet "numberedList") [listItemNode "1." [.str "D"] []]] := by
  constructor
  · intro l hnn
    rw [groupBlocks, groupAux_spec l [] hnn, List.nil_append, groupSpec_flush l]
  · simp [renderContent, groupBlocks, groupAux, flushRun, typeIs, getMem, lookupF,
      renderPBs, renderPB, renderItems, renderBlock, truthy, truthyOpt, extractTextO,
      extractTextContent, renderInlineO, renderInlineContent, jsTrim, skipWs,
      ordinalShown, listItemNode]
    exact ⟨⟨rfl, rfl⟩, rfl⟩

/-- C4 witness: the general grouping equivalence applied to the concrete
four-block sequence of the claim. -/
theorem c4_witness :
    groupBlocks
      [.jobj [("type", .jstr "numberedListItem"), ("content", .jstr "A")],
       .jobj [("type", .jstr "numberedListItem"), ("content", .jstr "B")],
       .jobj [("type", .jstr "paragraph"), ("content", .jstr "C")],
       .jobj [("type", .jstr "numberedListItem"), ("content", .jstr "D")]] =
    .ok (groupSpec
      [.jobj [("type", .jstr "numberedListItem"), ("content", .jstr "A")],
       .jobj [("type", .jstr "numberedListItem"), ("content", .jstr "B")],
       .jobj [("type", .jstr "paragraph"), ("content", .jstr "C")],
       .jobj [("type", .jstr "numberedListItem"), ("content", .jstr "D")]]) :=
  c4_numbered_grouping.1 _ (by simp)

/-- C8: unknown-block fallback. For any block with a truthy string `type`
that is none of the nine recognized types, rendering emits exactly one plain
paragraph node carrying the extracted text when that text is not
blank, and emits nothing (`null`) when the extraction is empty or
whitespace-only. -/
theorem c8_unknown_fallback :
    ∀ (n : Nat) (b : JVal) (t s : String) (li : Option Nat),
      truthy b = true →
      getMem b "type" = some (.jstr t) →
      t ≠ "" →
      t ∉ ["heading", "paragraph", "bulletListItem", "numberedListItem", "image",
        "codeBlock", "quote", "divider", "projectCard"] →
      extractTextO (getMem b "content") = .ok s →
      renderBlock (n + 1) b li =
        .ok (if jsTrim s = "" then none
          else some (.textEl (.sheet "paragraph") [.str s])) := by
  intro n b t s li htr hty htne hunk hext
  simp only [List.mem_cons, List.not_mem_nil, or_false, not_or] at hunk
  obtain ⟨h1, h2, h3, h4, h5, h6, h7, h8, h9⟩ := hunk
  rw [renderBlock, hty]
  have hts : truthyOpt (some (JVal.jstr t)) = true := by
    simp [truthyOpt, truthy, htne]
  simp [htr, hts, h1, h2, h3, h4, h5, h6, h7, h8, h9, unknownFallback, hext]
  by_cases hcs : jsTrim s = ""
  · rw [if_pos hcs, if_pos hcs]
  · rw [if_neg hcs, if_neg hcs]

/-- C8 witness: the concrete unknown block of the specification renders as a
plain paragraph node with text `hello`. -/
theorem c8_witness :
    renderBlock 1 (.jobj [("type", .jstr "madeUpType"), ("content", .jstr "hello")])
      none = .ok (some (.textEl (.sheet "paragraph") [.str "hello"])) := by
  have h := c8_unknown_fallback 0
    (.jobj [("type", .jstr "madeUpType"), ("content", .jstr "hello")])
    "madeUpType" "hello" none
    (by simp [truthy])
    (by simp [getMem, lookupF])
    (by simp)
    (by simp)
    (by simp [getMem, lookupF, extractTextO, extractTextContent, truthy])
  simpa [jsTrim, skipWs] using h

/-- C6: a projectCard block whose `props.nestedContent` is a string that is
invalid JSON, or that decodes to a non-array value, renders without aborting
(`Except.ok`), producing the card container with its title text node and its
cover-image part, and no nested-content view at all — the bad nested content
is treated as absent (the source logs a warning, which is not modelled). -/
theorem c6_projectCard_bad_nested :
    ∀ (n : Nat) (b : JVal) (s : String) (li : Option Nat),
      truthy b = true →
      getMem b "type" = some (.jstr "projectCard") →
      propOf b "nestedContent" = some (.jstr s) →
      (jsonParse s = none ∨ ∃ v, jsonParse s = some v ∧ isArr v = false) →
      renderBlock (n + 1) b li =
        .ok (some (.viewEl (.sheet "projectCard")
          ([.textEl (.sheet "projectCardTitle") [toChild (cardTitleVal b)]] ++
            cardCoverPart b))) := by
  intro n b s li htr hty hnc hbad
  have hnested : cardNested b = none := by
    rw [cardNested, hnc]
    by_cases hs : s = ""
    · simp [truthy, hs]
    · simp only [truthy, jsCoerceStr]
      rw [if_pos (by simpa using hs)]
      rcases hbad with hnone | ⟨v, hv, hvarr⟩
      · rw [hnone]
      · rw [hv]
        cases v <;> simp [isArr] at hvarr ⊢
  rw [renderBlock, hty]
  have hts : truthyOpt (some (JVal.jstr "projectCard")) = true := by
    simp [truthyOpt, truthy]
  simp [htr, hts, hnested]

/-- C6 witness: a concrete card whose `nestedContent` is the invalid
encoding `oops` still renders its title node, with no nested output. -/
theorem c6_witness :
    renderBlock 1
      (.jobj [("type", .jstr "projectCard"),
        ("props", .jobj [("title", .jstr "T"), ("coverImage", .jstr ""),
          ("nestedContent", .jstr "oops")])]) none =
    .ok (some (.viewEl (.sheet "projectCard")
      [.textEl (.sheet "projectCardTitle") [.str "T"]])) := by
  have h := c6_projectCard_bad_nested 0
    (.jobj [("type", .jstr "projectCard"),
      ("props", .jobj [("title", .jstr "T"), ("coverImage", .jstr ""),
        ("nestedContent", .jstr "oops")])])
    "oops" none
    (by simp [truthy])
    (by simp [getMem, lookupF])
    (by simp [propOf, getMem, lookupF])
    (Or.inl (by rfl))
  simpa [cardTitleVal, cardCoverPart, propOf, getMem, lookupF, truthy, toChild]
    using h

/-- C10 (implicit): first conjunct — `sanitizeBlock` replaces every truthy
non-array `content` value (in particular the plain strings used by the
default nested skeleton) with the empty array. Second conjunct — the
consequence on the concrete block `{type: madeUpType, content: "hello"}`:
sanitizing then rendering emits nothing, while rendering the unsanitized
block directly emits a paragraph node with text `hello`. -/
theorem c10_content_coercion :
    (∀ (v o c : JVal), sanitizeBlock v = some o →
      getMem v "content" = some c → truthy c = true → isArr c = false →
      getMem o "content" = some (.jarr [])) ∧
    (sanitizeBlock (.jobj [("type", .jstr "madeUpType"), ("content", .jstr "hello")]) =
      some (.jobj [("type", .jstr "madeUpType"), ("content", .jarr [])]) ∧
     renderBlock 1 (.jobj [("type", .jstr "madeUpType"), ("content", .jarr [])]) none =
      .ok none ∧
     renderBlock 1 (.jobj [("type", .jstr "madeUpType"), ("content", .jstr "hello")]) none =
      .ok (some (.textEl (.sheet "paragraph") [.str "hello"]))) := by
  refine ⟨?_, ?_, ?_, ?_⟩
  · intro v o c hsan hc htr harr
    by_cases hv : isObjLike v = true
    · rw [sanitizeBlock_eq_sanObj v hv, Option.some_inj] at hsan
      subst hsan
      rw [getMem_sanObj_content, hc]
      cases c <;> simp [isArr] at harr <;> simp [sanContent, htr]
    · rw [sanitizeBlock, dif_neg hv] at hsan
      cases hsan
  · simp [sanitizeBlock, isObjLike, getMem, lookupF, optEntry, sanId, sanContent,
      sanChildrenOpt, sanProps, truthy, sanObj]
  · simp [renderBlock, getMem, lookupF, truthy, truthyOpt, unknownFallback,
      extractTextO, extractTextContent, extractItems, jsTrim, skipWs, bind,
      Except.bind, String.join]
  · simp [renderBlock, getMem, lookupF, truthy, truthyOpt, unknownFallback,
      extractTextO, extractTextContent, jsTrim, skipWs]

/-- C10 witness: the general content-coercion conjunct applied to the
concrete unknown block. -/
theorem c10_witness :
    getMem (.jobj [("type", .jstr "madeUpType"), ("content", .jarr [])]) "content" =
      some (.jarr []) :=
  c10_content_coercion.1
    (.jobj [("type", .jstr "madeUpType"), ("content", .jstr "hello")])
    (.jobj [("type", .jstr "madeUpType"), ("content", .jarr [])])
    (.jstr "hello")
    (by simp [sanitizeBlock, isObjLike, getMem, lookupF, optEntry, sanId, sanContent,
      sanChildrenOpt, sanProps, truthy, sanObj])
    (by simp [getMem, lookupF])
    (by simp [truthy])
    (by simp [isArr])

/-- The `loadEditorContent` of storage.ts, as a function of the stored value
the external localStorage holds under the fixed key (`none` models a missing
key). The result pairs the returned document (`none` models `null`) with
whether the stored key was cleared (`clearEditorContent` called). The
surrounding try/catch means none of these conditions surfaces as a thrown
error; the catch branch — reached exactly when `JSON.parse` throws — clears
and returns `null`. The guard `if (!serialized)` is a truthiness test, so a
stored empty string takes the no-saved-content branch without attempting a
decode and without clearing. -/
def loadEditorContent (stored : Option String) : Option (List JVal) × Bool :=
  match stored with
  | none => (none, false)
  | some s =>
    if s = "" then (none, false)
    else
      match jsonParse s with
      | none => (none, true)
      | some (.jarr xs) => if xs.isEmpty then (none, false) else (some xs, false)
      | some _ => (none, true)

/-- The load behaviour asserted by claim C9, evaluated at one stored value
(written from the claim: return the array exactly on a non-empty-array
decode; return null otherwise; self-clear exactly on decode failure or a
non-array decode). -/
def loadClaimC9 (stored : Option String) : Prop :=
  match stored with
  | none => loadEditorContent none = (none, false)
  | some s =>
    match jsonParse s with
    | none => loadEditorContent (some s) = (none, true)
    | some (.jarr xs) =>
      loadEditorContent (some s) = (if xs.isEmpty then (none, false) else (some xs, false))
    | some _ => loadEditorContent (some s) = (none, true)

/-- C9, counterexample: a stored empty string. The empty string is a stored
value that fails to decode (`JSON.parse("")` throws), so the claim's
"self-clears exactly in the decode-failure and non-array cases" requires a
clear; but `loadEditorContent` tests `if (!serialized)` first, and `""` is
falsy, so the code returns null without attempting the decode and without
clearing. -/
theorem c9_counterexample_empty_string : ¬ loadClaimC9 (some "") := by
  have hp : jsonParse "" = none := rfl
  intro h
  rw [loadClaimC9] at h
  rw [hp] at h
  simp [loadEditorContent] at h

/-- C9 (amended): the load returns the saved array exactly when a stored
value exists, is not the empty string, and decodes to a non-empty array; it
returns null in every other case; and it self-clears exactly when a
non-empty stored string fails to decode or decodes to a non-array value —
the stored empty string being treated as no saved content (null, no clear).
No case is surfaced as a thrown error (the function is total). -/
theorem c9_amended_load_behaviour :
    ∀ stored : Option String,
      (∀ xs : List JVal, (loadEditorContent stored).1 = some xs ↔
        ∃ s, stored = some s ∧ s ≠ "" ∧ jsonParse s = some (.jarr xs) ∧ xs ≠ []) ∧
      ((loadEditorContent stored).2 = true ↔
        ∃ s, stored = some s ∧ s ≠ "" ∧
          (jsonParse s = none ∨ ∃ v, jsonParse s = some v ∧ isArr v = false)) := by
  intro stored
  match stored with
  | none => simp [loadEditorContent]
  | some s =>
    by_cases hs : s = ""
    · subst hs
      simp [loadEditorContent]
    · cases hp : jsonParse s with
      | none => simp [loadEditorContent, hs, hp]
      | some v =>
        match v with
        | .jarr ys =>
          by_cases hy : ys.isEmpty = true
          · have : ys = [] := by simpa [List.isEmpty_iff] using hy
            subst this
            simp [loadEditorContent, hs, hp, isArr]
          · have hne : ys ≠ [] := by simpa [List.isEmpty_iff] using hy
            simp [loadEditorContent, hs, hp, hne, isArr]
        | .jnull => simp [loadEditorContent, hs, hp, isArr]
        | .jbool b => simp [loadEditorContent, hs, hp, isArr]
        | .jnum n => simp [loadEditorContent, hs, hp, isArr]
        | .jstr t => simp [loadEditorContent, hs, hp, isArr]
        | .jobj fs => simp [loadEditorContent, hs, hp, isArr]

/-- Modelled from the spec: the external editing surface's
`updateBlock(blockRef, { props: partial })` "merges into existing props"
(spec, External Interfaces). One key's merge: overwrite the existing entry
in place, or append a new entry. Only this merge semantics comes from the
specification; the fields written through it come from ProjectCard.tsx. -/
def setProp : List (String × JVal) → String → JVal → List (String × JVal)
  | [], k, v => [(k, v)]
  | (k2, v2) :: rest, k, v =>
    if k2 = k then (k2, v) :: rest else (k2, v2) :: setProp rest k v

/-- Modelled from the spec: merge of a partial props object into the
existing props, key by key in order. -/
def updateProps (ps us : List (String × JVal)) : List (String × JVal) :=
  us.foldl (fun acc kv => setProp acc kv.1 kv.2) ps

/-- The unguarded synchronizer write of ProjectCard.tsx (the body of the
nested editor's `onChange` handler, lines 153-195, once past the reentrancy
guard): read the nested session's document, find its first embedded image,
serialize the document, and update the parent block's props with
`coverImage: newCoverImage || block.props.coverImage` and
`nestedContent: serializedContent`. The props always carry `coverImage`
(the block's propSchema defaults it to `""`); the `getD` default covers the
unreachable absent case. -/
def projectCardSyncProps (props : List (String × JVal)) (doc : List JVal) :
    Except Unit (List (String × JVal)) :=
  match findFirstImage doc with
  | .error e => .error e
  | .ok newCoverImage =>
    let serializedContent := jsonStringify (.jarr doc)
    let cover := if truthy newCoverImage then newCoverImage
      else (lookupF "coverImage" props).getD (.jstr "")
    .ok (updateProps props
      [("coverImage", cover), ("nestedContent", .jstr serializedContent)])

theorem lookupF_setProp_eq (ps : List (String × JVal)) (k : String) (v : JVal) :
    lookupF k (setProp ps k v) = some v := by
  induction ps with
  | nil => simp [setProp, lookupF]
  | cons kv rest ih =>
    obtain ⟨k2, v2⟩ := kv
    rw [setProp]
    by_cases hk : k2 = k
    · rw [if_pos hk]
      simp [lookupF, hk]
    · rw [if_neg hk]
      simp [lookupF, hk, ih]

theorem lookupF_setProp_ne (ps : List (String × JVal)) (k k2 : String) (v : JVal)
    (h : k2 ≠ k) : lookupF k2 (setProp ps k v) = lookupF k2 ps := by
  have hne : k ≠ k2 := fun he => h he.symm
  induction ps with
  | nil =>
    simp [setProp, lookupF, hne]
  | cons kv rest ih =>
    obtain ⟨k3, v3⟩ := kv
    rw [setProp]
    by_cases hk : k3 = k
    · rw [if_pos hk]
      subst hk
      rw [lookupF, lookupF, if_neg hne, if_neg hne]
    · rw [if_neg hk]
      rw [lookupF, lookupF]
      by_cases hk2 : k3 = k2
      · rw [if_pos hk2, if_pos hk2]
      · rw [if_neg hk2, if_neg hk2, ih]

/-- C7: the synchronizer write frame. On an unguarded change notification
with nested document `doc` (null-free along the content axis, so that the
image search returns), the write updates exactly two props: `nestedContent`
becomes the new serialization of `doc`, and `coverImage` becomes the first
image URL found in `doc` when one exists (a truthy search result) and keeps
its previous value otherwise; every other prop — in particular `title` and
`subtext` — is unchanged. -/
theorem c7_sync_write_frame :
    ∀ (props : List (String × JVal)) (doc : List JVal) (u prev : JVal)
      (ps2 : List (String × JVal)),
      findFirstImage doc = .ok u →
      lookupF "coverImage" props = some prev →
      projectCardSyncProps props doc = .ok ps2 →
      lookupF "nestedContent" ps2 = some (.jstr (jsonStringify (.jarr doc))) ∧
      lookupF "coverImage" ps2 = some (if truthy u then u else prev) ∧
      ∀ k, k ≠ "coverImage" → k ≠ "nestedContent" →
        lookupF k ps2 = lookupF k props := by
  intro props doc u prev ps2 himg hprev hsync
  rw [projectCardSyncProps, himg] at hsync
  simp only [Except.ok.injEq] at hsync
  subst hsync
  rw [updateProps]
  simp only [List.foldl_cons, List.foldl_nil]
  refine ⟨?_, ?_, ?_⟩
  · exact lookupF_setProp_eq _ _ _
  · rw [lookupF_setProp_ne _ _ _ _ (by decide), lookupF_setProp_eq]
    rw [hprev]
    simp
  · intro k hk1 hk2
    rw [lookupF_setProp_ne _ _ _ _ hk2, lookupF_setProp_ne _ _ _ _ hk1]

/-- C7 witness: a concrete unguarded write over props carrying a title and
subtext, with a nested document holding no image: `nestedContent` is set to
the new encoding, `coverImage` keeps its previous (empty) value, and `title`
and `subtext` are untouched. -/
theorem c7_witness :
    lookupF "nestedContent"
        (updateProps
          [("title", .jstr "T"), ("subtext", .jstr "S"), ("coverImage", .jstr "")]
          [("coverImage", .jstr ""),
           ("nestedContent", .jstr (jsonStringify
             (.jarr [.jobj [("type", .jstr "paragraph"), ("content", .jstr "x")]])))]) =
      some (.jstr (jsonStringify
        (.jarr [.jobj [("type", .jstr "paragraph"), ("content", .jstr "x")]]))) ∧
    lookupF "coverImage"
        (updateProps
          [("title", .jstr "T"), ("subtext", .jstr "S"), ("coverImage", .jstr "")]
          [("coverImage", .jstr ""),
           ("nestedContent", .jstr (jsonStringify
             (.jarr [.jobj [("type", .jstr "paragraph"), ("content", .jstr "x")]])))]) =
      some (.jstr "") ∧
    lookupF "title"
        (updateProps
          [("title", .jstr "T"), ("subtext", .jstr "S"), ("coverImage", .jstr "")]
          [("coverImage", .jstr ""),
           ("nestedContent", .jstr (jsonStringify
             (.jarr [.jobj [("type", .jstr "paragraph"), ("content", .jstr "x")]])))]) =
      some (.jstr "T") := by
  have h := c7_sync_write_frame
    [("title", .jstr "T"), ("subtext", .jstr "S"), ("coverImage", .jstr "")]
    [.jobj [("type", .jstr "paragraph"), ("content", .jstr "x")]]
    (.jstr "") (.jstr "")
    (updateProps
      [("title", .jstr "T"), ("subtext", .jstr "S"), ("coverImage", .jstr "")]
      [("coverImage", .jstr ""),
       ("nestedContent", .jstr (jsonStringify
         (.jarr [.jobj [("type", .jstr "paragraph"), ("content", .jstr "x")]])))])
    (by simp [findFirstImage, findFirstImageCont, isImageWithUrl, typeIs, propsUrl,
      getMem, lookupF, truthyOpt, urlOf, jOf])
    (by simp [lookupF])
    (by rw [projectCardSyncProps]
        rw [show findFirstImage
            [JVal.jobj [("type", JVal.jstr "paragraph"), ("content", JVal.jstr "x")]] =
            .ok (.jstr "") from by
          simp [findFirstImage, findFirstImageCont, isImageWithUrl, typeIs, propsUrl,
            getMem, lookupF, truthyOpt, urlOf, jOf]]
        simp [truthy, lookupF])
  obtain ⟨h1, h2, h3⟩ := h
  refine ⟨h1, by simpa [truthy] using h2, h3 "title" (by decide) (by decide)⟩
